import Mathlib

/-! # Havoc teamserver: listener registry, event log and agent lookups

A shallow embedding of `Teamserver/pkg/teamserver/listener.go` and of the types of
`Teamserver/pkg/teamserver/types.go` it works on.

Conventions of the embedding.

* Go slices are Lean lists, a `nil` slice is `[]`.
* `map[string]any` is an association list read by first key; a `nil` map reads as the empty
  one. Every record owns its `Info` map (the event builders allocate one map per event).
* A Go `error` value is its message text; `none` is the `nil` error.
* A run-time panic (a failed type assertion) is an explicit outcome; the state returned with it
  is the state at the point of the panic.
* `int` is the 64 bit integer of the platforms the server is built for, so `int(x)` of an
  `int64` is `x`.
* Code of other packages (`handlers`, `packager`, `events`, `agent`, `encoding/json`) is not
  part of this development: its constants, event builders, serialiser and backend behaviour
  are the fields of `Env`.
-/

set_option linter.dupNamespace false

namespace Havoc

/-! ## `strconv.ParseInt(s, 16, 64)` -/

/-- The two kinds of `*strconv.NumError` a call with a valid base and bit size can return:
`strconv.ErrSyntax` (here `invalid`) and `strconv.ErrRange` (here `range`). -/
inductive NumError where
  | invalid
  | range
deriving DecidableEq, Repr

/-- The pair `(value, err)` returned by the parsing functions. -/
structure Parsed where
  val : Int
  err : Option NumError
deriving DecidableEq, Repr

/-- Go: `lower(c) = c | ('x' - 'X')`, on the code of the character. -/
def lower (c : Nat) : Nat := c ||| 0x20

/-- The digit switch in the loop of `strconv.ParseUint`: the value `d` of one byte, `none` in
the `default` case. A character outside ASCII is encoded in bytes that all take the `default`
case. -/
def digitVal (c : Char) : Option Nat :=
  if 48 ≤ c.toNat ∧ c.toNat ≤ 57 then some (c.toNat - 48)
  else if 97 ≤ lower c.toNat ∧ lower c.toNat ≤ 122 then some (lower c.toNat - 97 + 10)
  else none

/-- Go: `maxUint64/16 + 1`, the cutoff of `ParseUint` for base 16. -/
def cutoff16 : Nat := (2 ^ 64 - 1) / 16 + 1

/-- Go: `maxVal := uint64(1)<<uint(bitSize) - 1` for `bitSize = 64`. -/
def maxVal64 : Nat := 2 ^ 64 - 1

/-- The loop of `strconv.ParseUint(s, 16, 64)` over the bytes of `s`, `n` being the
accumulator; arithmetic is that of `uint64`. -/
def parseUintLoop : List Char → Nat → Nat × Option NumError
  | [], n => (n, none)
  | c :: cs, n =>
    match digitVal c with
    | none => (0, some NumError.invalid)
    | some d =>
      if d ≥ 16 then (0, some NumError.invalid)
      else if n ≥ cutoff16 then (maxVal64, some NumError.range)
      else
        let m := (n * 16) % 2 ^ 64
        let n1 := (m + d) % 2 ^ 64
        if n1 < m ∨ n1 > maxVal64 then (maxVal64, some NumError.range)
        else parseUintLoop cs n1

/-- Go: `strconv.ParseUint(s, 16, 64)` on the characters of `s`. -/
def ParseUint (s : List Char) : Nat × Option NumError :=
  match s with
  | [] => (0, some NumError.invalid)
  | _ => parseUintLoop s 0

/-- Go: the conversion `int64(x)`, two's complement wrap-around. -/
def toInt64 (x : Int) : Int := (x + 2 ^ 63) % 2 ^ 64 - 2 ^ 63

/-- The part of `strconv.ParseInt` after the sign has been picked off. -/
def parseSigned (neg : Bool) (s : List Char) : Parsed :=
  match ParseUint s with
  | (_, some NumError.invalid) => { val := 0, err := some NumError.invalid }
  | (un, _) =>
    if neg = false ∧ un ≥ 2 ^ 63 then
      { val := toInt64 (2 ^ 63 - 1), err := some NumError.range }
    else if neg = true ∧ un > 2 ^ 63 then
      { val := toInt64 (- toInt64 (2 ^ 63)), err := some NumError.range }
    else
      let n := toInt64 un
      { val := if neg then toInt64 (- n) else n, err := none }

/-- Go: `strconv.ParseInt(s, 16, 64)`. -/
def ParseInt (s : String) : Parsed :=
  match s.toList with
  | [] => { val := 0, err := some NumError.invalid }
  | c :: cs =>
    if c = '+' then parseSigned false cs
    else if c = '-' then parseSigned true cs
    else parseSigned false (c :: cs)

/-! ## Data model -/

/-- Modelled from the spec: the type `agent.Agent` is declared in another package; the
teamserver reads only its `NameID` (the hexadecimal identity), the rest of the session is
kept as one field. -/
structure Agent where
  NameID : String
  Session : Nat
deriving DecidableEq, Repr

/-- A value of Go type `any` stored in an `Info` map: a string, or a value of another type. -/
inductive Value where
  | str (s : String)
  | other (n : Nat)
deriving DecidableEq, Repr

/-- Go: `v, ok := m[k]` on a `map[string]any`. -/
def mapGet : List (String × Value) → String → Option Value
  | [], _ => none
  | (k1, v1) :: m, k => if k1 = k then some v1 else mapGet m k

/-- Go: `m[k] = v` on a `map[string]any`. -/
def mapSet : List (String × Value) → String → Value → List (String × Value)
  | [], k, v => [(k, v)]
  | (k1, v1) :: m, k, v => if k1 = k then (k, v) :: m else (k1, v1) :: mapSet m k v

/-- Modelled from the spec: `packager.Package` is declared in another package; the data model of
the spec gives it a head with the event kind and a body with the sub-kind and the `Info` map. -/
structure PackageHead where
  Event : Int
deriving DecidableEq, Repr

/-- The body of a `packager.Package`, see `PackageHead`. -/
structure PackageBody where
  SubEvent : Int
  Info : List (String × Value)
deriving DecidableEq, Repr

/-- An event record, Go `packager.Package`. -/
structure Package where
  Head : PackageHead
  Body : PackageBody
deriving DecidableEq, Repr

/-- Modelled from the spec: `handlers.HTTPConfig` is declared in another package. The fields
the teamserver reads or writes are kept by name, the others are the `Rest`. -/
structure HTTPConfig where
  Name : String
  UserAgent : String
  Headers : List String
  Uris : List String
  Proxy : List (String × String)
  Secure : Bool
  Rest : List (String × String)
deriving DecidableEq, Repr

/-- Modelled from the spec: `handlers.SMBConfig`, a configuration record with a `Name`. -/
structure SMBConfig where
  Name : String
  Rest : List (String × String)
deriving DecidableEq, Repr

/-- Modelled from the spec: `handlers.ExternalConfig`, a configuration record with a `Name` and
the route path `Endpoint`. -/
structure ExternalConfig where
  Name : String
  Endpoint : String
  Rest : List (String × String)
deriving DecidableEq, Repr

/-- The backend handle `handlers.HTTP`: the teamserver reads and writes its `Config`. -/
structure HTTP where
  Config : HTTPConfig
deriving DecidableEq, Repr

/-- The backend handle `handlers.SMB`. -/
structure SMB where
  Config : SMBConfig
deriving DecidableEq, Repr

/-- The backend handle `handlers.External`. -/
structure External where
  Config : ExternalConfig
deriving DecidableEq, Repr

/-- The argument `info any` of `ListenerStart` and `Config any` of `ListenerEdit`, by dynamic
type. -/
inductive Info where
  | http (c : HTTPConfig)
  | smb (c : SMBConfig)
  | ext (c : ExternalConfig)
  | other (n : Nat)
deriving DecidableEq, Repr

/-- The field `Config any` of a `Listener`, by dynamic type: a pointer to one of the three
backend handles, or `nil`. -/
inductive Handle where
  | HTTP (h : HTTP)
  | SMB (s : SMB)
  | External (e : External)
  | nil
deriving DecidableEq, Repr

/-- Go: `type Listener struct { Name string; Type int; Config any }`; the field `Type` is
written `Type_`. -/
structure Listener where
  Name : String
  Type_ : Int
  Config : Handle
deriving DecidableEq, Repr

/-- Go: `type Endpoint struct`, without the handler function. -/
structure Endpoint where
  Endpoint : String
deriving DecidableEq, Repr

/-- What the teamserver does to the outside, in the order it happens. -/
inductive Effect where
  | EventAppend (pk : Package)
  | EventBroadcast (recipient : String) (pk : Package)
  | Start (Name : String)
  | Stop (Name : String)
  | EndpointAdd (path : String)
  | EndpointRemove (path : String)
deriving DecidableEq, Repr

/-- The fields of Go `Teamserver` the listener code works on (`Agents` is `t.Agents.Agents`),
and the `Trace` of effects, which is not a field of the Go struct. -/
structure Teamserver where
  EventsList : List Package
  Agents : List Agent
  Listeners : List Listener
  Endpoints : List Endpoint
  Trace : List Effect
deriving DecidableEq, Repr

/-! ## Agent lookups of the callback table -/

/-- The loop of the closure `Functions.AgentExists`. -/
def agentExistsLoop (DemonID : Int) : List Agent → Bool
  | [] => false
  | demon :: rest =>
    let r := ParseInt demon.NameID
    if r.err ≠ none then false
    else if DemonID = r.val then true
    else agentExistsLoop DemonID rest

/-- Go: `Functions.AgentExists = func(DemonID int) bool`. -/
def AgentExists (t : Teamserver) (DemonID : Int) : Bool :=
  agentExistsLoop DemonID t.Agents

/-- The loop of the closure `Functions.AgentGetInstance`; the error of `ParseInt` is
discarded. -/
def agentGetInstanceLoop (DemonID : Int) : List Agent → Option Agent
  | [] => none
  | demon :: rest =>
    let NameID := (ParseInt demon.NameID).val
    if DemonID = NameID then some demon
    else agentGetInstanceLoop DemonID rest

/-- Go: `Functions.AgentGetInstance = func(DemonID int) *agent.Agent`. -/
def AgentGetInstance (t : Teamserver) (DemonID : Int) : Option Agent :=
  agentGetInstanceLoop DemonID t.Agents

/-- The reading of the spec: an entry matches `id` when its identity parses without error as a
base-16 integer equal to `id`. -/
def parsesTo (id : Int) (a : Agent) : Bool :=
  decide ((ParseInt a.NameID).err = none ∧ (ParseInt a.NameID).val = id)

/-- The reading of the spec of `AgentGetInstance`: the first agent, in registry order, whose
identity parses to `id`; unparsable entries are skipped. -/
def firstParsingTo (t : Teamserver) (id : Int) : Option Agent :=
  t.Agents.find? (parsesTo id)

/-! ## What the other packages provide -/

/-- How a call that returns an `error` ends: with `nil`, with an error, or in a panic. -/
inductive Outcome where
  | ok
  | error (msg : String)
  | panic
deriving DecidableEq, Repr

/-- The code of the packages `handlers`, `packager` and `events` that `listener.go` uses and
that is not part of this development.

* `LISTENER_HTTP`, `LISTENER_PIVOT_SMB`, `LISTENER_EXTERNAL`: the constants of `handlers`; they
  label the cases of one `switch`, which Go compiles only when they are pairwise distinct.
* `Listener_Type`, `Listener_Add`: `packager.Type.Listener.Type` and `packager.Type.Listener.Add`.
* `ListenerError`: the event builder `events.Listener.ListenerError(user, name, err)`.
* `NewExternal`: the constructor `handlers.NewExternal` (the web engine is not modelled).
* `httpStart`, `smbStart`, `extStart`: the method `Start()` of the three backends, run on the
  state of the server; the HTTP and the external backend may change their own handle, the SMB
  backend "only prints a message and lets the client know that it is ready to use".
* `httpStop`: the error returned by `Stop()` of an HTTP backend.
* `Demons_MarkAs`, `Demons_DemonOutput`: the event builders `events.Demons.MarkAs(id, mark)` and
  `events.Demons.DemonOutput(id, command, output)`.
* `COMMAND_NOJOB`, `HAVOC_CONSOLE_MESSAGE`: the command constants of the package `agent`.
* `Marshal`: `json.Marshal` on a `map[string]string`, the map given by its entries. -/
structure Env where
  LISTENER_HTTP : Int
  LISTENER_PIVOT_SMB : Int
  LISTENER_EXTERNAL : Int
  cases_distinct : LISTENER_HTTP ≠ LISTENER_PIVOT_SMB ∧ LISTENER_HTTP ≠ LISTENER_EXTERNAL ∧
    LISTENER_PIVOT_SMB ≠ LISTENER_EXTERNAL
  Listener_Type : Int
  Listener_Add : Int
  ListenerError : String → String → String → Package
  NewExternal : ExternalConfig → External
  httpStart : HTTP → Teamserver → HTTP × Teamserver
  smbStart : SMB → Teamserver → Teamserver
  extStart : External → Teamserver → External × Teamserver
  httpStop : HTTP → Option String
  Demons_MarkAs : String → String → Package
  Demons_DemonOutput : String → Int → String → Package
  COMMAND_NOJOB : Int
  HAVOC_CONSOLE_MESSAGE : Int
  Marshal : List (String × String) → String

/-- Adds one effect at the end of the trace. -/
def record (e : Effect) (t : Teamserver) : Teamserver :=
  { t with Trace := t.Trace ++ [e] }

/-- Modelled from the spec: `Teamserver.EventAppend` is defined in another file of the package;
the event log is "an append-only ordered sequence of event records" and the call appends the
record at its end. -/
def EventAppend (pk : Package) (t : Teamserver) : Teamserver :=
  record (Effect.EventAppend pk) { t with EventsList := t.EventsList ++ [pk] }

/-- Modelled from the spec: `Teamserver.EventBroadcast` is defined in another file of the
package; it sends the record to the recipient, `""` meaning all clients, and leaves the log
alone ("decoupled from the log"). -/
def EventBroadcast (recipient : String) (pk : Package) (t : Teamserver) : Teamserver :=
  record (Effect.EventBroadcast recipient pk) t

/-- Modelled from the spec: `Teamserver.EndpointAdd` is defined in another file of the package;
the endpoint registry is "a simple append/remove-by-path list". -/
def EndpointAdd (e : Endpoint) (t : Teamserver) : Teamserver :=
  record (Effect.EndpointAdd e.Endpoint) { t with Endpoints := t.Endpoints ++ [e] }

/-- Modelled from the spec: `Teamserver.EndpointRemove` is defined in another file of the
package; it removes the binding whose path equals the one given. -/
def EndpointRemove (path : String) (t : Teamserver) : Teamserver :=
  record (Effect.EndpointRemove path)
    { t with Endpoints := t.Endpoints.eraseP (fun e => decide (e.Endpoint = path)) }

/-- A backend reaches the server only through the callback table, which gives no access to the
listener list nor to the endpoint list: of the state `t1` a backend leaves behind, these two
are those of the state `t` it was started in. -/
def throughCallbacks (t t1 : Teamserver) : Teamserver :=
  { t1 with Listeners := t.Listeners, Endpoints := t.Endpoints }

/-! ## The event log -/

/-- The four nested conditions of the log scans of `EventListenerError` and `ListenerRemove`:
the record is a listener event, of sub-kind `Add`, its `Info` has the key `"Name"`, and the
value (of type `any`) equals the string `Name`. -/
def isListenerAdd (E : Env) (Name : String) (pk : Package) : Bool :=
  if pk.Head.Event = E.Listener_Type then
    if pk.Body.SubEvent = E.Listener_Add then
      match mapGet pk.Body.Info "Name" with
      | some name => if name = Value.str Name then true else false
      | none => false
    else false
  else false

/-- The two assignments in the body of the scan of `EventListenerError`. -/
def markOffline (Error : String) (pk : Package) : Package :=
  { pk with Body := { pk.Body with
      Info := mapSet (mapSet pk.Body.Info "Status" (Value.str "Offline")) "Error"
        (Value.str Error) } }

/-- The scan `for EventID := range t.EventsList` of `EventListenerError`; it visits every
record. -/
def patchLoop (E : Env) (ListenerName Error : String) : List Package → List Package
  | [] => []
  | pk :: rest =>
    (if isListenerAdd E ListenerName pk then markOffline Error pk else pk) ::
      patchLoop E ListenerName Error rest

/-- Go: `Functions.EventListenerError = func(ListenerName string, Error error)`. -/
def EventListenerError (E : Env) (ListenerName Error : String) (t : Teamserver) : Teamserver :=
  let pk := E.ListenerError "" ListenerName Error
  let t1 := EventAppend pk t
  let t2 := EventBroadcast "" pk t1
  { t2 with EventsList := patchLoop E ListenerName Error t2.EventsList }

/-! ## The listener registry -/

/-- The `switch ListenerType` inside the loop of `ListenerStart`: the declared name of the
request, `none` when the type assertion on `info` panics. A type that is none of the three
leaves `Name` at its zero value. -/
def declaredName (E : Env) (ListenerType : Int) (info : Info) : Option String :=
  if ListenerType = E.LISTENER_HTTP then
    match info with
    | Info.http c => some c.Name
    | _ => none
  else if ListenerType = E.LISTENER_PIVOT_SMB then
    match info with
    | Info.smb c => some c.Name
    | _ => none
  else if ListenerType = E.LISTENER_EXTERNAL then
    match info with
    | Info.ext c => some c.Name
    | _ => none
  else some ""

/-- How the loop `for _, listener := range t.Listeners` of `ListenerStart` ends. -/
inductive Scan where
  | pass
  | found
  | panic
deriving DecidableEq, Repr

/-- The loop `for _, listener := range t.Listeners` of `ListenerStart`. -/
def nameScan (E : Env) (ListenerType : Int) (info : Info) : List Listener → Scan
  | [] => Scan.pass
  | listener :: rest =>
    match declaredName E ListenerType info with
    | none => Scan.panic
    | some Name =>
      if Name = listener.Name then Scan.found else nameScan E ListenerType info rest

/-- Go: `t.Listeners = append(t.Listeners, &Listener{...})`. -/
def addListener (l : Listener) (t : Teamserver) : Teamserver :=
  { t with Listeners := t.Listeners ++ [l] }

/-- The `switch ListenerType` of `ListenerStart` that builds and starts the backend: the state
after it and the values of `ListenerConfig` and `ListenerName`; `none` when the type assertion
on `info` panics, which happens before anything is changed. A type that is none of the three
leaves both variables at their zero values. -/
def startBackend (E : Env) (ListenerType : Int) (info : Info) (t : Teamserver) :
    Option (Teamserver × Handle × String) :=
  if ListenerType = E.LISTENER_HTTP then
    match info with
    | Info.http config =>
      let HTTPConfig0 : HTTP := { Config := config }
      let HTTPConfig1 : HTTP := { Config := { HTTPConfig0.Config with Secure := config.Secure } }
      let r := E.httpStart HTTPConfig1 (record (Effect.Start HTTPConfig1.Config.Name) t)
      some (throughCallbacks t r.2, Handle.HTTP r.1, config.Name)
    | _ => none
  else if ListenerType = E.LISTENER_PIVOT_SMB then
    match info with
    | Info.smb config =>
      let SmbConfig : SMB := { Config := config }
      let t1 := throughCallbacks t
        (E.smbStart SmbConfig (record (Effect.Start SmbConfig.Config.Name) t))
      some (t1, Handle.SMB SmbConfig, SmbConfig.Config.Name)
    | _ => none
  else if ListenerType = E.LISTENER_EXTERNAL then
    match info with
    | Info.ext config =>
      let ExtConfig0 := E.NewExternal config
      let r := E.extStart ExtConfig0 (record (Effect.Start ExtConfig0.Config.Name) t)
      let t1 := throughCallbacks t r.2
      let t2 := EndpointAdd { Endpoint := r.1.Config.Endpoint } t1
      some (t2, Handle.External r.1, config.Name)
    | _ => none
  else some (t, Handle.nil, "")

/-- Go: `func (t *Teamserver) ListenerStart(ListenerType int, info any) error`. -/
def ListenerStart (E : Env) (ListenerType : Int) (info : Info) (t : Teamserver) :
    Teamserver × Outcome :=
  match nameScan E ListenerType info t.Listeners with
  | Scan.panic => (t, Outcome.panic)
  | Scan.found => (t, Outcome.error "listener already exists")
  | Scan.pass =>
    match startBackend E ListenerType info t with
    | none => (t, Outcome.panic)
    | some (t1, ListenerConfig, ListenerName) =>
      (addListener { Name := ListenerName, Type_ := ListenerType, Config := ListenerConfig } t1,
        Outcome.ok)

/-- The scan `for EventID := range t.EventsList` of `ListenerRemove` over the log `events`:
at the first hit the record at that index is cut out and the scan ends. -/
def eventScan (E : Env) (Name : String) (events : List Package) : Nat → List Package →
    List Package
  | _, [] => events
  | EventID, pk :: rest =>
    if isListenerAdd E Name pk then events.take EventID ++ events.drop (EventID + 1)
    else eventScan E Name events (EventID + 1) rest

/-- The body of the loop of `ListenerRemove` for the listener `l` found at index `i`. -/
def removeBody (E : Env) (Name : String) (t : Teamserver) (i : Nat) (l : Listener) :
    Teamserver :=
  let t1 :=
    match l.Config with
    | Handle.HTTP h =>
      let t0 := record (Effect.Stop l.Name) t
      match E.httpStop h with
      | some err =>
        let pk := E.ListenerError "" l.Name err
        EventBroadcast "" pk (EventAppend pk t0)
      | none => t0
    | Handle.External e => EndpointRemove e.Config.Endpoint t
    | _ => t
  let t2 := { t1 with Listeners := t1.Listeners.take i ++ t1.Listeners.drop (i + 1) }
  { t2 with EventsList := eventScan E Name t2.EventsList 0 t2.EventsList }

/-- The loop `for i := range t.Listeners` of `ListenerRemove`. -/
def removeScan (E : Env) (Name : String) (t : Teamserver) : Nat → List Listener → Teamserver
  | _, [] => t
  | i, l :: rest =>
    if l.Name = Name then removeBody E Name t i l else removeScan E Name t (i + 1) rest

/-- Go: `func (t *Teamserver) ListenerRemove(Name string) ([]*Listener, []packager.Package)`;
the result is the state and the two values returned. -/
def ListenerRemove (E : Env) (Name : String) (t : Teamserver) :
    Teamserver × List Listener × List Package :=
  let t1 := removeScan E Name t 0 t.Listeners
  (t1, t1.Listeners, t1.EventsList)

/-- The loop `for i := range t.Listeners` of `ListenerEdit` in the case `LISTENER_HTTP`: the
listeners after the loop, and whether it ended in a panic. -/
def editLoop (Config : Info) : List Listener → List Listener × Bool
  | [] => ([], false)
  | l :: rest =>
    match Config with
    | Info.http c =>
      if l.Name = c.Name then
        match l.Config with
        | Handle.HTTP h =>
          let h1 : HTTP := { Config := { h.Config with
            UserAgent := c.UserAgent, Headers := c.Headers, Uris := c.Uris, Proxy := c.Proxy } }
          let r := editLoop Config rest
          ({ l with Config := Handle.HTTP h1 } :: r.1, r.2)
        | _ => (l :: rest, true)
      else
        let r := editLoop Config rest
        (l :: r.1, r.2)
    | _ => (l :: rest, true)

/-- Go: `func (t *Teamserver) ListenerEdit(Type int, Config any)`; the result is the state and
whether the call ended in a panic. -/
def ListenerEdit (E : Env) (Type_ : Int) (Config : Info) (t : Teamserver) : Teamserver × Bool :=
  if Type_ = E.LISTENER_HTTP then
    let r := editLoop Config t.Listeners
    ({ t with Listeners := r.1 }, r.2)
  else (t, false)

/-- The listener `l` after the four assignments of the loop body of `ListenerEdit` for the
configuration `c`, when `l` carries the name of `c` and an HTTP handle; any other listener is
returned as it is. -/
def editOne (c : HTTPConfig) (l : Listener) : Listener :=
  if l.Name = c.Name then
    match l.Config with
    | Handle.HTTP h =>
      { l with Config := Handle.HTTP { Config := { h.Config with
          UserAgent := c.UserAgent, Headers := c.Headers, Uris := c.Uris, Proxy := c.Proxy } } }
    | _ => l
  else l

/-- A value in the field map returned by `ListenerGetInfo`. -/
inductive FieldValue where
  | str (s : String)
  | strs (l : List String)
  | bool (b : Bool)
  | pairs (l : List (String × String))
deriving DecidableEq, Repr

/-- Modelled from the spec: `structs.Map` of the library `github.com/fatih/structs`, applied to
a `handlers.HTTPConfig`, is not part of this development; it gives "a flattened view of the
backend's configuration", one entry per field, keyed by the name of the field. -/
def structsMap (c : HTTPConfig) : List (String × FieldValue) :=
  [("Name", FieldValue.str c.Name), ("UserAgent", FieldValue.str c.UserAgent),
    ("Headers", FieldValue.strs c.Headers), ("Uris", FieldValue.strs c.Uris),
    ("Proxy", FieldValue.pairs c.Proxy), ("Secure", FieldValue.bool c.Secure)] ++
    c.Rest.map (fun kv => (kv.1, FieldValue.str kv.2))

/-- How `ListenerGetInfo` ends: in a panic, or with the map returned, `none` being `nil`. -/
inductive InfoResult where
  | panic
  | ret (m : Option (List (String × FieldValue)))
deriving DecidableEq, Repr

/-- The loop `for _, listener := range t.Listeners` of `ListenerGetInfo`; the `break` of the
cases `LISTENER_EXTERNAL` and `LISTENER_PIVOT_SMB` leaves the `switch`, not the loop. -/
def getInfoLoop (E : Env) (Name : String) : List Listener → InfoResult
  | [] => InfoResult.ret none
  | listener :: rest =>
    if listener.Name = Name then
      if listener.Type_ = E.LISTENER_HTTP then
        match listener.Config with
        | Handle.HTTP h => InfoResult.ret (some (structsMap h.Config))
        | _ => InfoResult.panic
      else if listener.Type_ = E.LISTENER_EXTERNAL then getInfoLoop E Name rest
      else if listener.Type_ = E.LISTENER_PIVOT_SMB then getInfoLoop E Name rest
      else getInfoLoop E Name rest
    else getInfoLoop E Name rest

/-- Go: `func (t *Teamserver) ListenerGetInfo(Name string) map[string]any`. -/
def ListenerGetInfo (E : Env) (Name : String) (t : Teamserver) : InfoResult :=
  getInfoLoop E Name t.Listeners

/-! ## The other callbacks of the table -/

/-- Go: `Functions.EventAgentMark = func(AgentID, Mark string)`. -/
def EventAgentMark (E : Env) (AgentID Mark : String) (t : Teamserver) : Teamserver :=
  let pk := E.Demons_MarkAs AgentID Mark
  EventBroadcast "" pk (EventAppend pk t)

/-- Go: `Functions.CallbackSize = func(DemonInstance *agent.Agent, i int)`; `%v` prints the
integer in decimal. -/
def CallbackSize (E : Env) (DemonInstance : Agent) (i : Int) (t : Teamserver) : Teamserver :=
  let Message : List (String × String) :=
    [("Type", "Good"), ("Message", "Send Task to Agent [" ++ toString i ++ " bytes]")]
  let OutputJson := E.Marshal Message
  let pk := E.Demons_DemonOutput DemonInstance.NameID E.HAVOC_CONSOLE_MESSAGE OutputJson
  EventBroadcast "" pk (EventAppend pk t)

/-- Go: `Functions.DemonOutput = func(DemonID string, CommandID int, Output map[string]string)`.
-/
def DemonOutput (E : Env) (DemonID : String) (CommandID : Int) (Output : List (String × String))
    (t : Teamserver) : Teamserver :=
  let out := E.Marshal Output
  let pk := E.Demons_DemonOutput DemonID CommandID out
  EventBroadcast "" pk (EventAppend pk t)

/-- Go: `Functions.AgentCallback = func(DemonID string, Time string)`. -/
def AgentCallback (E : Env) (DemonID Time : String) (t : Teamserver) : Teamserver :=
  let Output : List (String × String) := [("Output", Time)]
  let out := E.Marshal Output
  let pk := E.Demons_DemonOutput DemonID E.COMMAND_NOJOB out
  EventBroadcast "" pk t

/-! ## Sequences of calls -/

/-- The states reachable from a registry without listeners by calls of `ListenerStart`,
`ListenerRemove` and `ListenerEdit` with any arguments; a call that panics leaves the state
it had reached. -/
inductive Reachable (E : Env) : Teamserver → Prop where
  | empty (t : Teamserver) (h : t.Listeners = []) : Reachable E t
  | start (ListenerType : Int) (info : Info) (t : Teamserver) (h : Reachable E t) :
      Reachable E (ListenerStart E ListenerType info t).1
  | remove (Name : String) (t : Teamserver) (h : Reachable E t) :
      Reachable E (ListenerRemove E Name t).1
  | edit (Type_ : Int) (Config : Info) (t : Teamserver) (h : Reachable E t) :
      Reachable E (ListenerEdit E Type_ Config t).1

/-- A start request of one of the three listener types, with the configuration of that type. -/
inductive Request where
  | HTTP (c : HTTPConfig)
  | SMB (c : SMBConfig)
  | External (c : ExternalConfig)
deriving DecidableEq, Repr

/-- The argument `ListenerType` of the request. -/
def Request.Type_ (E : Env) : Request → Int
  | Request.HTTP _ => E.LISTENER_HTTP
  | Request.SMB _ => E.LISTENER_PIVOT_SMB
  | Request.External _ => E.LISTENER_EXTERNAL

/-- The argument `info` of the request. -/
def Request.info : Request → Info
  | Request.HTTP c => Info.http c
  | Request.SMB c => Info.smb c
  | Request.External c => Info.ext c

/-- The `Name` of the configuration of the request. -/
def Request.Name : Request → String
  | Request.HTTP c => c.Name
  | Request.SMB c => c.Name
  | Request.External c => c.Name

/-- One call of the registry: `Start` is `ListenerStart`, `Stop` is `ListenerRemove`. -/
inductive Call where
  | Start (r : Request)
  | Stop (Name : String)
deriving DecidableEq, Repr

/-- The state after one call. -/
def Call.run (E : Env) (t : Teamserver) : Call → Teamserver
  | Call.Start r => (ListenerStart E (r.Type_ E) r.info t).1
  | Call.Stop Name => (ListenerRemove E Name t).1

/-- The state after a sequence of calls, first call first. -/
def runCalls (E : Env) (calls : List Call) (t : Teamserver) : Teamserver :=
  calls.foldl (Call.run E) t

/-- The names of the `Start` calls of a sequence, in order. -/
def startedNames : List Call → List String
  | [] => []
  | Call.Start r :: rest => r.Name :: startedNames rest
  | Call.Stop _ :: rest => startedNames rest

/-- The reading of the spec: `n` was started and not subsequently stopped when the sequence
has a `Start` of `n` with no `Stop` of `n` after it. -/
def StartedNotStopped (calls : List Call) (n : String) : Prop :=
  ∃ (before after : List Call) (r : Request),
    calls = before ++ Call.Start r :: after ∧ r.Name = n ∧ Call.Stop n ∉ after

/-! ## A concrete environment -/

/-- The "listener added" event the concrete HTTP backend records when it starts. -/
def addEvent (Name : String) : Package :=
  { Head := { Event := 2 },
    Body := { SubEvent := 1,
              Info := [("Name", Value.str Name), ("Status", Value.str "Online")] } }

/-- A concrete environment to evaluate the definitions in: the listener types are 1, 2, 3,
listener events have kind 2 with sub-kinds 1 (`Add`) and 5 (`Error`), an HTTP backend records
and broadcasts its "listener added" event on `Start()`, and `Stop()` fails, with the message
`"server closed"`, exactly for an HTTP backend without URIs; agent events have kind 7, and a
map is serialised entry by entry. -/
def demoEnv : Env where
  LISTENER_HTTP := 1
  LISTENER_PIVOT_SMB := 2
  LISTENER_EXTERNAL := 3
  cases_distinct := by decide
  Listener_Type := 2
  Listener_Add := 1
  ListenerError := fun _ name err =>
    { Head := { Event := 2 },
      Body := { SubEvent := 5, Info := [("Error", Value.str err), ("Name", Value.str name)] } }
  NewExternal := fun c => { Config := c }
  httpStart := fun h t =>
    (h, EventBroadcast "" (addEvent h.Config.Name) (EventAppend (addEvent h.Config.Name) t))
  smbStart := fun _ t => t
  extStart := fun e t => (e, t)
  httpStop := fun h => if h.Config.Uris = [] then some "server closed" else none
  Demons_MarkAs := fun id mark =>
    { Head := { Event := 7 },
      Body := { SubEvent := 3, Info := [("AgentID", Value.str id), ("Marked", Value.str mark)] } }
  Demons_DemonOutput := fun id command output =>
    { Head := { Event := 7 },
      Body := { SubEvent := 4,
                Info := [("DemonID", Value.str id), ("CommandID", Value.other command.toNat),
                  ("Output", Value.str output)] } }
  COMMAND_NOJOB := 10
  HAVOC_CONSOLE_MESSAGE := 128
  Marshal := fun m => String.join (m.map (fun kv => kv.1 ++ "=" ++ kv.2 ++ ";"))

/-- A server without listeners, events, agents or endpoints. -/
def emptyServer : Teamserver :=
  { EventsList := [], Agents := [], Listeners := [], Endpoints := [], Trace := [] }

/-- An HTTP configuration named `Name` with the URIs `Uris`. -/
def httpConfig (Name : String) (Uris : List String) : HTTPConfig :=
  { Name := Name, UserAgent := "Mozilla/5.0", Headers := [], Uris := Uris, Proxy := [],
    Secure := false, Rest := [] }

/-- The concrete server after an HTTP listener `"A"` has been started on the empty one. -/
def serverA : Teamserver :=
  (ListenerStart demoEnv 1 (Info.http (httpConfig "A" ["/index"])) emptyServer).1

/-- The concrete server after a second HTTP listener, `"B"`, without URIs, has been started:
its `Stop()` fails. -/
def serverAB : Teamserver :=
  (ListenerStart demoEnv 1 (Info.http (httpConfig "B" [])) serverA).1

/-- The concrete server after an SMB pivot listener `"P"` has been started on the empty one.
-/
def serverP : Teamserver :=
  (ListenerStart demoEnv 2 (Info.smb { Name := "P", Rest := [] }) emptyServer).1

end Havoc

/-! # Theorems -/

namespace Havoc

/-! ## Agent lookups -/

theorem agentLoops_agree (id : Int) (agents : List Agent)
    (h : ∀ a ∈ agents, (ParseInt a.NameID).err = none) :
    agentExistsLoop id agents = (agentGetInstanceLoop id agents).isSome ∧
      agentGetInstanceLoop id agents = agents.find? (parsesTo id) := by
  induction agents with
  | nil => simp [agentExistsLoop, agentGetInstanceLoop]
  | cons a rest ih =>
    have ha : (ParseInt a.NameID).err = none := h a (List.mem_cons_self a rest)
    have hrest := ih (fun b hb => h b (List.mem_cons_of_mem a hb))
    by_cases hid : id = (ParseInt a.NameID).val
    · have hp : parsesTo id a = true := by simp [parsesTo, ha, hid.symm]
      simp [agentExistsLoop, agentGetInstanceLoop, ha, ← hid, List.find?, hp]
    · have hp : parsesTo id a = false := by
        simp only [parsesTo, decide_eq_false_iff_not, not_and]
        intro _ hv
        exact hid hv.symm
      simp [agentExistsLoop, agentGetInstanceLoop, ha, hid, List.find?, hp, hrest.1, hrest.2]

/-- Claim C9: in a registry where every stored `NameID` parses as a base-16 integer,
`AgentExists(id)` is true exactly when `AgentGetInstance(id)` returns an agent, and the agent
returned is the first one, in registry order, whose `NameID` parses to `id`. -/
theorem AgentExists_iff_AgentGetInstance (t : Teamserver) (id : Int)
    (h : ∀ a ∈ t.Agents, (ParseInt a.NameID).err = none) :
    (AgentExists t id = true ↔ (AgentGetInstance t id).isSome = true) ∧
      AgentGetInstance t id = firstParsingTo t id := by
  have key := agentLoops_agree id t.Agents h
  refine ⟨?_, key.2⟩
  unfold AgentExists AgentGetInstance
  rw [key.1]

/-- In the registry `1f`, `2a`, `1F` every identity parses, and the lookups of 31 agree. -/
theorem AgentExists_iff_AgentGetInstance_witness :
    (∀ a ∈ ({ emptyServer with Agents := [⟨"1f", 1⟩, ⟨"2a", 2⟩, ⟨"1F", 3⟩] } : Teamserver).Agents,
        (ParseInt a.NameID).err = none) ∧
      ((AgentExists { emptyServer with Agents := [⟨"1f", 1⟩, ⟨"2a", 2⟩, ⟨"1F", 3⟩] } 31 = true ↔
          (AgentGetInstance { emptyServer with Agents := [⟨"1f", 1⟩, ⟨"2a", 2⟩, ⟨"1F", 3⟩] }
            31).isSome = true) ∧
        AgentGetInstance { emptyServer with Agents := [⟨"1f", 1⟩, ⟨"2a", 2⟩, ⟨"1F", 3⟩] } 31 =
          firstParsingTo { emptyServer with Agents := [⟨"1f", 1⟩, ⟨"2a", 2⟩, ⟨"1F", 3⟩] } 31) :=
  ⟨by decide, AgentExists_iff_AgentGetInstance _ 31 (by decide)⟩

/-- Claim C10 fails on the code: the error of `ParseInt` is discarded and the value returned
with it is compared. The identity `zz` does not parse, `ParseInt` returns 0 with the error, and
`AgentGetInstance(0)` returns that agent; `8000000000000000` is out of range, `ParseInt`
returns the largest 64 bit value with the error, and `AgentGetInstance(2^63 - 1)` returns that
agent, although a later agent has the identity `7fffffffffffffff`. In both registries the
reading of the spec gives another result. -/
theorem AgentGetInstance_returns_unparsable :
    (ParseInt "zz").err ≠ none ∧
      AgentGetInstance { emptyServer with Agents := [⟨"zz", 7⟩] } 0 = some ⟨"zz", 7⟩ ∧
      firstParsingTo { emptyServer with Agents := [⟨"zz", 7⟩] } 0 = none ∧
      (ParseInt "8000000000000000").err ≠ none ∧
      AgentGetInstance
        { emptyServer with Agents := [⟨"8000000000000000", 1⟩, ⟨"7fffffffffffffff", 2⟩] }
        (2 ^ 63 - 1) = some ⟨"8000000000000000", 1⟩ ∧
      firstParsingTo
        { emptyServer with Agents := [⟨"8000000000000000", 1⟩, ⟨"7fffffffffffffff", 2⟩] }
        (2 ^ 63 - 1) = some ⟨"7fffffffffffffff", 2⟩ := by
  decide

/-! ## `ListenerStart`: the name check -/

theorem declaredName_request (E : Env) (r : Request) :
    declaredName E (r.Type_ E) r.info = some r.Name := by
  obtain ⟨h12, h13, h23⟩ := E.cases_distinct
  cases r with
  | HTTP c => simp [declaredName, Request.Type_, Request.info, Request.Name]
  | SMB c => simp [declaredName, Request.Type_, Request.info, Request.Name, Ne.symm h12]
  | External c =>
    simp [declaredName, Request.Type_, Request.info, Request.Name, Ne.symm h13, Ne.symm h23]

theorem nameScan_found (E : Env) (ListenerType : Int) (info : Info) (n : String)
    (hn : declaredName E ListenerType info = some n) (ls : List Listener)
    (hmem : ∃ l ∈ ls, l.Name = n) : nameScan E ListenerType info ls = Scan.found := by
  induction ls with
  | nil => simp at hmem
  | cons l rest ih =>
    by_cases hl : n = l.Name
    · simp [nameScan, hn, hl]
    · obtain ⟨x, hx, hxn⟩ := hmem
      have hx2 : x ∈ rest := by
        rcases List.mem_cons.mp hx with h | h
        · exact absurd (h ▸ hxn).symm hl
        · exact h
      simp [nameScan, hn, hl, ih ⟨x, hx2, hxn⟩]

theorem nameScan_pass (E : Env) (ListenerType : Int) (info : Info) (n : String)
    (hn : declaredName E ListenerType info = some n) (ls : List Listener)
    (hmem : ∀ l ∈ ls, l.Name ≠ n) : nameScan E ListenerType info ls = Scan.pass := by
  induction ls with
  | nil => rfl
  | cons l rest ih =>
    have hl : ¬ n = l.Name := fun h => hmem l (List.mem_cons_self l rest) h.symm
    simp [nameScan, hn, hl, ih (fun x hx => hmem x (List.mem_cons_of_mem l hx))]

/-- Claim C1: a start request of type HTTP, SMB_PIVOT or EXTERNAL whose configuration carries
the `Name` of a listener already in the registry is answered with the error
"listener already exists", and the server is left as it was: the listener list, the endpoint
list, the event log and the trace of effects (no backend started) are unchanged. -/
theorem ListenerStart_duplicate_name (E : Env) (t : Teamserver) (r : Request)
    (hdup : ∃ l ∈ t.Listeners, l.Name = r.Name) :
    (ListenerStart E (r.Type_ E) r.info t).2 = Outcome.error "listener already exists" ∧
      (ListenerStart E (r.Type_ E) r.info t).1 = t := by
  have hscan := nameScan_found E (r.Type_ E) r.info r.Name (declaredName_request E r)
    t.Listeners hdup
  simp [ListenerStart, hscan]

/-- On the server that runs the HTTP listener `"A"`, a second start of an HTTP listener `"A"`
is rejected. -/
theorem ListenerStart_duplicate_name_witness :
    (∃ l ∈ serverA.Listeners, l.Name = (Request.HTTP (httpConfig "A" [])).Name) ∧
      (ListenerStart demoEnv ((Request.HTTP (httpConfig "A" [])).Type_ demoEnv)
          (Request.HTTP (httpConfig "A" [])).info serverA).2 =
        Outcome.error "listener already exists" ∧
      (ListenerStart demoEnv ((Request.HTTP (httpConfig "A" [])).Type_ demoEnv)
          (Request.HTTP (httpConfig "A" [])).info serverA).1 = serverA :=
  ⟨by decide, ListenerStart_duplicate_name demoEnv serverA (Request.HTTP (httpConfig "A" []))
    (by decide)⟩

/-! ## `ListenerRemove` -/

theorem removeScan_absent (E : Env) (Name : String) (t : Teamserver) (ls : List Listener)
    (h : ∀ l ∈ ls, l.Name ≠ Name) (i : Nat) : removeScan E Name t i ls = t := by
  induction ls generalizing i with
  | nil => rfl
  | cons l rest ih =>
    have hl : l.Name ≠ Name := h l (List.mem_cons_self l rest)
    simp [removeScan, hl, ih (fun x hx => h x (List.mem_cons_of_mem l hx))]

/-- Claim C7: when no listener has the given `Name`, `ListenerRemove` leaves the server as it
was (listener list, endpoint list, event log, also when the log holds an `Add` record for the
name, and trace of effects: nothing stopped, appended or broadcast) and returns the listener
list and the event log unchanged. -/
theorem ListenerRemove_unknown_name (E : Env) (t : Teamserver) (Name : String)
    (h : ∀ l ∈ t.Listeners, l.Name ≠ Name) :
    ListenerRemove E Name t = (t, t.Listeners, t.EventsList) := by
  simp [ListenerRemove, removeScan_absent E Name t t.Listeners h]

/-- A server without listeners whose log holds the `Add` record of `"A"`: removing `"A"`
changes nothing, the record stays. -/
theorem ListenerRemove_unknown_name_witness :
    (∀ l ∈ ({ emptyServer with EventsList := [addEvent "A"] } : Teamserver).Listeners,
        l.Name ≠ "A") ∧
      ListenerRemove demoEnv "A" { emptyServer with EventsList := [addEvent "A"] } =
        ({ emptyServer with EventsList := [addEvent "A"] },
          ({ emptyServer with EventsList := [addEvent "A"] } : Teamserver).Listeners,
          ({ emptyServer with EventsList := [addEvent "A"] } : Teamserver).EventsList) :=
  ⟨by decide, ListenerRemove_unknown_name demoEnv _ "A" (by decide)⟩

theorem eventScan_eq (E : Env) (Name : String) (rest pre : List Package) :
    eventScan E Name (pre ++ rest) pre.length rest =
      pre ++ rest.eraseP (isListenerAdd E Name) := by
  induction rest generalizing pre with
  | nil => simp [eventScan]
  | cons pk rest ih =>
    by_cases hp : isListenerAdd E Name pk = true
    · simp [eventScan, hp, List.eraseP_cons_of_pos]
    · have h := ih (pre ++ [pk])
      simp only [List.length_append, List.length_singleton, List.append_assoc,
        List.singleton_append] at h
      simp [eventScan, hp, h]

theorem eventScan_zero (E : Env) (Name : String) (events : List Package) :
    eventScan E Name events 0 events = events.eraseP (isListenerAdd E Name) := by
  simpa using eventScan_eq E Name events []

theorem eraseP_append_tail {α : Type} (p : α → Bool) (old extra : List α) :
    ∃ kept, (old ++ extra).eraseP p = old.eraseP p ++ kept ∧ kept.Sublist extra := by
  rw [List.eraseP_append]
  by_cases h : old.any p = true
  · exact ⟨extra, by simp [h], List.Sublist.refl extra⟩
  · refine ⟨extra.eraseP p, ?_, List.eraseP_sublist extra⟩
    have hnone : ∀ a ∈ old, ¬ p a = true := by
      intro a ha hpa
      exact h (List.any_eq_true.mpr ⟨a, ha, hpa⟩)
    simp [h, List.eraseP_of_forall_not hnone]

theorem exists_first_named (Name : String) (ls : List Listener)
    (h : ∃ l ∈ ls, l.Name = Name) :
    ∃ pre l post, ls = pre ++ l :: post ∧ (∀ x ∈ pre, x.Name ≠ Name) ∧ l.Name = Name := by
  induction ls with
  | nil => simp at h
  | cons a rest ih =>
    by_cases ha : a.Name = Name
    · exact ⟨[], a, rest, rfl, by simp, ha⟩
    · obtain ⟨x, hx, hxn⟩ := h
      have hx2 : x ∈ rest := by
        rcases List.mem_cons.mp hx with h1 | h1
        · exact absurd (h1 ▸ hxn) ha
        · exact h1
      obtain ⟨pre, l, post, hls, hpre, hl⟩ := ih ⟨x, hx2, hxn⟩
      refine ⟨a :: pre, l, post, by simp [hls], ?_, hl⟩
      intro y hy
      rcases List.mem_cons.mp hy with h1 | h1
      · exact h1 ▸ ha
      · exact hpre y h1

theorem eraseP_first_named (Name : String) (pre post : List Listener) (l : Listener)
    (hpre : ∀ x ∈ pre, x.Name ≠ Name) (hl : l.Name = Name) :
    (pre ++ l :: post).eraseP (fun x => decide (x.Name = Name)) = pre ++ post := by
  rw [List.eraseP_append_right _ (by simpa using hpre)]
  simp [List.eraseP_cons_of_pos, hl]

theorem removeScan_hit (E : Env) (Name : String) (t : Teamserver) (pre : List Listener)
    (l : Listener) (post : List Listener) (hpre : ∀ x ∈ pre, x.Name ≠ Name)
    (hl : l.Name = Name) (i : Nat) :
    removeScan E Name t i (pre ++ l :: post) = removeBody E Name t (i + pre.length) l := by
  induction pre generalizing i with
  | nil => simp [removeScan, hl]
  | cons a pre ih =>
    have ha : a.Name ≠ Name := hpre a (List.mem_cons_self a pre)
    have h := ih (fun x hx => hpre x (List.mem_cons_of_mem a hx)) (i + 1)
    have hidx : i + 1 + pre.length = i + (a :: pre).length := by
      simp only [List.length_cons]
      omega
    rw [hidx] at h
    rw [List.cons_append, removeScan, if_neg ha]
    exact h

theorem removeBody_Listeners (E : Env) (Name : String) (t : Teamserver) (i : Nat)
    (l : Listener) :
    (removeBody E Name t i l).Listeners = t.Listeners.take i ++ t.Listeners.drop (i + 1) := by
  unfold removeBody
  cases l.Config with
  | HTTP h =>
    cases hs : E.httpStop h <;> simp [hs, record, EventAppend, EventBroadcast]
  | SMB s => simp
  | External e => simp [EndpointRemove, record]
  | nil => simp

theorem removeBody_EventsList (E : Env) (Name : String) (t : Teamserver) (i : Nat)
    (l : Listener) :
    ∃ extra, (removeBody E Name t i l).EventsList =
        (t.EventsList ++ extra).eraseP (isListenerAdd E Name) ∧
      extra.length ≤ 1 ∧ ∀ e ∈ extra, ∃ err, e = E.ListenerError "" l.Name err := by
  unfold removeBody
  cases l.Config with
  | HTTP h =>
    cases hs : E.httpStop h with
    | none => exact ⟨[], by simp [hs, record, eventScan_zero], by simp, by simp⟩
    | some err =>
      exact ⟨[E.ListenerError "" l.Name err],
        by simp [hs, record, EventAppend, EventBroadcast, eventScan_zero], by simp,
        by simp⟩
  | SMB s => exact ⟨[], by simp [eventScan_zero], by simp, by simp⟩
  | External e => exact ⟨[], by simp [EndpointRemove, record, eventScan_zero], by simp, by simp⟩
  | nil => exact ⟨[], by simp [eventScan_zero], by simp, by simp⟩

/-- Claim C6: when the registry holds a listener named `Name`, `ListenerRemove(Name)` returns
(a) the listener list without the first listener of that name, one shorter, the others
unchanged and in order, and with no listener of that name left when the names were unique;
(b) an event log that begins with the old log without its first `Listener`/`Add` record for
`Name`, every other old record kept in order; what follows it is at most the one
`ListenerError` record of a failed `Stop()`. The values returned are the lists of the new
state. -/
theorem ListenerRemove_removes (E : Env) (t : Teamserver) (Name : String)
    (h : ∃ l ∈ t.Listeners, l.Name = Name) :
    (ListenerRemove E Name t).2.1 =
        t.Listeners.eraseP (fun l => decide (l.Name = Name)) ∧
      (ListenerRemove E Name t).2.1.length + 1 = t.Listeners.length ∧
      ((t.Listeners.map (fun l => l.Name)).Nodup →
        ∀ l ∈ (ListenerRemove E Name t).2.1, l.Name ≠ Name) ∧
      (∃ extra, (ListenerRemove E Name t).2.2 =
          t.EventsList.eraseP (isListenerAdd E Name) ++ extra ∧
        extra.length ≤ 1 ∧ ∀ e ∈ extra, ∃ err, e = E.ListenerError "" Name err) ∧
      (ListenerRemove E Name t).1.Listeners = (ListenerRemove E Name t).2.1 ∧
      (ListenerRemove E Name t).1.EventsList = (ListenerRemove E Name t).2.2 := by
  obtain ⟨pre, l, post, hls, hpre, hl⟩ := exists_first_named Name t.Listeners h
  have hscan : removeScan E Name t 0 t.Listeners = removeBody E Name t pre.length l := by
    have := removeScan_hit E Name t pre l post hpre hl 0
    rw [hls]
    simpa using this
  have hlist : (removeBody E Name t pre.length l).Listeners = pre ++ post := by
    rw [removeBody_Listeners, hls]
    simp [List.take_left', List.drop_left']
  have herase := eraseP_first_named Name pre post l hpre hl
  refine ⟨?_, ?_, ?_, ?_, rfl, rfl⟩
  · simp only [ListenerRemove, hscan, hlist]
    rw [hls, herase]
  · simp only [ListenerRemove, hscan, hlist]
    rw [hls]
    simp only [List.length_append, List.length_cons]
    omega
  · intro hnd x hx
    simp only [ListenerRemove, hscan, hlist] at hx
    rw [hls] at hnd
    simp only [List.map_append, List.map_cons] at hnd
    have hnd2 := List.nodup_append.mp hnd
    have hcons := List.nodup_cons.mp hnd2.2.1
    rcases List.mem_append.mp hx with hx1 | hx1
    · exact hpre x hx1
    · intro hxn
      apply hcons.1
      rw [hl, ← hxn]
      exact List.mem_map_of_mem (fun l => l.Name) hx1
  · obtain ⟨extra, hev, hlen, hmem⟩ := removeBody_EventsList E Name t pre.length l
    obtain ⟨kept, hk, hsub⟩ := eraseP_append_tail (isListenerAdd E Name) t.EventsList extra
    refine ⟨kept, ?_, ?_, ?_⟩
    · simp only [ListenerRemove, hscan, hev, hk]
    · exact le_trans hsub.length_le hlen
    · intro e he
      obtain ⟨err, herr⟩ := hmem e (hsub.subset he)
      exact ⟨err, by rw [herr, hl]⟩

/-- On the server that runs the HTTP listeners `"A"` and `"B"`, removing `"B"` returns the
list without `"B"`. -/
theorem ListenerRemove_removes_witness :
    (∃ l ∈ serverAB.Listeners, l.Name = "B") ∧
      (ListenerRemove demoEnv "B" serverAB).2.1 =
        serverAB.Listeners.eraseP (fun l => decide (l.Name = "B")) :=
  ⟨by decide, (ListenerRemove_removes demoEnv serverAB "B" (by decide)).1⟩

theorem removeBody_http_fail (E : Env) (Name : String) (t : Teamserver) (i : Nat)
    (l : Listener) (h : HTTP) (err : String) (hcfg : l.Config = Handle.HTTP h)
    (hs : E.httpStop h = some err) :
    removeBody E Name t i l =
      { EventsList := (t.EventsList ++ [E.ListenerError "" l.Name err]).eraseP
          (isListenerAdd E Name),
        Agents := t.Agents,
        Listeners := t.Listeners.take i ++ t.Listeners.drop (i + 1),
        Endpoints := t.Endpoints,
        Trace := t.Trace ++ [Effect.Stop l.Name,
          Effect.EventAppend (E.ListenerError "" l.Name err),
          Effect.EventBroadcast "" (E.ListenerError "" l.Name err)] } := by
  simp [removeBody, hcfg, hs, record, EventAppend, EventBroadcast, eventScan_zero]

theorem removeBody_http_ok (E : Env) (Name : String) (t : Teamserver) (i : Nat)
    (l : Listener) (h : HTTP) (hcfg : l.Config = Handle.HTTP h) (hs : E.httpStop h = none) :
    removeBody E Name t i l =
      { EventsList := t.EventsList.eraseP (isListenerAdd E Name),
        Agents := t.Agents,
        Listeners := t.Listeners.take i ++ t.Listeners.drop (i + 1),
        Endpoints := t.Endpoints,
        Trace := t.Trace ++ [Effect.Stop l.Name] } := by
  simp [removeBody, hcfg, hs, record, eventScan_zero]

/-- Claim C8: when the listener `ListenerRemove(Name)` finds (the first one named `Name`) has
an HTTP backend, the listener is deleted from the registry whatever `Stop()` returns. If
`Stop()` returns an error, the `ListenerError` event for `Name` with that error is appended
and then broadcast to all clients, once, and the first matching `Add` record of the log is
deleted all the same; the new event, not being an `Add` record, stays at the end of the log.
If `Stop()` returns no error, the log only loses the first matching `Add` record and nothing
is appended or broadcast. -/
theorem ListenerRemove_http_stop (E : Env) (t : Teamserver) (Name : String) (l : Listener)
    (h : HTTP) (hfind : t.Listeners.find? (fun x => decide (x.Name = Name)) = some l)
    (hcfg : l.Config = Handle.HTTP h) :
    (ListenerRemove E Name t).1.Listeners =
        t.Listeners.eraseP (fun x => decide (x.Name = Name)) ∧
      (ListenerRemove E Name t).1.Endpoints = t.Endpoints ∧
      (∀ err, E.httpStop h = some err →
        (ListenerRemove E Name t).1.Trace = t.Trace ++ [Effect.Stop Name,
          Effect.EventAppend (E.ListenerError "" Name err),
          Effect.EventBroadcast "" (E.ListenerError "" Name err)] ∧
        (ListenerRemove E Name t).1.EventsList =
          (t.EventsList ++ [E.ListenerError "" Name err]).eraseP (isListenerAdd E Name) ∧
        (isListenerAdd E Name (E.ListenerError "" Name err) = false →
          (ListenerRemove E Name t).1.EventsList =
            t.EventsList.eraseP (isListenerAdd E Name) ++ [E.ListenerError "" Name err])) ∧
      (E.httpStop h = none →
        (ListenerRemove E Name t).1.Trace = t.Trace ++ [Effect.Stop Name] ∧
        (ListenerRemove E Name t).1.EventsList =
          t.EventsList.eraseP (isListenerAdd E Name)) := by
  obtain ⟨hpl, pre, post, hls, hpre⟩ := List.find?_eq_some.mp hfind
  have hl : l.Name = Name := by simpa using hpl
  have hpre2 : ∀ x ∈ pre, x.Name ≠ Name := by
    intro x hx
    simpa using hpre x hx
  have hscan : removeScan E Name t 0 t.Listeners = removeBody E Name t pre.length l := by
    have := removeScan_hit E Name t pre l post hpre2 hl 0
    rw [hls]
    simpa using this
  have hlist : (removeBody E Name t pre.length l).Listeners = pre ++ post := by
    rw [removeBody_Listeners, hls]
    simp [List.take_left', List.drop_left']
  have herase := eraseP_first_named Name pre post l hpre2 hl
  refine ⟨?_, ?_, ?_, ?_⟩
  · simp only [ListenerRemove, hscan, hlist]
    rw [hls, herase]
  · simp only [ListenerRemove, hscan]
    cases hs : E.httpStop h with
    | none => rw [removeBody_http_ok E Name t pre.length l h hcfg hs]
    | some err => rw [removeBody_http_fail E Name t pre.length l h err hcfg hs]
  · intro err hs
    have hbody := removeBody_http_fail E Name t pre.length l h err hcfg hs
    rw [hl] at hbody
    refine ⟨?_, ?_, ?_⟩
    · simp only [ListenerRemove, hscan, hbody]
    · simp only [ListenerRemove, hscan, hbody]
    · intro hpk
      simp only [ListenerRemove, hscan, hbody]
      rw [List.eraseP_append]
      by_cases hany : t.EventsList.any (isListenerAdd E Name) = true
      · simp [hany]
      · have hnone : ∀ a ∈ t.EventsList, ¬ isListenerAdd E Name a = true := by
          intro a ha hpa
          exact hany (List.any_eq_true.mpr ⟨a, ha, hpa⟩)
        simp [hany, List.eraseP_of_forall_not hnone, List.eraseP_cons_of_neg, hpk]
  · intro hs
    have hbody := removeBody_http_ok E Name t pre.length l h hcfg hs
    rw [hl] at hbody
    exact ⟨by simp only [ListenerRemove, hscan, hbody],
      by simp only [ListenerRemove, hscan, hbody]⟩

/-- On the server that runs `"A"` and `"B"`, the `Stop()` of `"B"` fails: the listener is
removed, its `Add` record is deleted and the log ends with the `ListenerError` event. -/
theorem ListenerRemove_http_stop_witness :
    serverAB.Listeners.find? (fun x => decide (x.Name = "B")) =
        some ⟨"B", 1, Handle.HTTP ⟨httpConfig "B" []⟩⟩ ∧
      demoEnv.httpStop ⟨httpConfig "B" []⟩ = some "server closed" ∧
      (ListenerRemove demoEnv "B" serverAB).1.EventsList =
        serverAB.EventsList.eraseP (isListenerAdd demoEnv "B") ++
          [demoEnv.ListenerError "" "B" "server closed"] :=
  ⟨by decide, by decide,
    ((ListenerRemove_http_stop demoEnv serverAB "B" ⟨"B", 1, Handle.HTTP ⟨httpConfig "B" []⟩⟩
      ⟨httpConfig "B" []⟩ (by decide) rfl).2.2.1 "server closed" (by decide)).2.2 (by decide)⟩

/-! ## `EventListenerError` -/

theorem mapGet_mapSet_same (m : List (String × Value)) (k : String) (v : Value) :
    mapGet (mapSet m k v) k = some v := by
  induction m with
  | nil => simp [mapSet, mapGet]
  | cons kv m ih =>
    obtain ⟨k1, v1⟩ := kv
    by_cases hk : k1 = k
    · simp [mapSet, mapGet, hk]
    · simp [mapSet, mapGet, hk, ih]

theorem mapGet_mapSet_other (m : List (String × Value)) (k k2 : String) (v : Value)
    (h : k ≠ k2) : mapGet (mapSet m k v) k2 = mapGet m k2 := by
  induction m with
  | nil => simp [mapSet, mapGet, h]
  | cons kv m ih =>
    obtain ⟨k1, v1⟩ := kv
    by_cases hk : k1 = k
    · subst hk
      simp [mapSet, mapGet, h]
    · by_cases hk2 : k1 = k2
      · subst hk2
        simp [mapSet, mapGet, hk]
      · simp [mapSet, mapGet, hk, hk2, ih]

theorem mapSet_of_mapGet (m : List (String × Value)) (k : String) (v : Value)
    (h : mapGet m k = some v) : mapSet m k v = m := by
  induction m with
  | nil => simp [mapGet] at h
  | cons kv m ih =>
    obtain ⟨k1, v1⟩ := kv
    by_cases hk : k1 = k
    · simp only [mapGet, hk, if_true, Option.some.injEq] at h
      simp [mapSet, hk, h]
    · simp only [mapGet, hk, if_false] at h
      simp [mapSet, hk, ih h]

theorem markOffline_Status (Error : String) (pk : Package) :
    mapGet (markOffline Error pk).Body.Info "Status" = some (Value.str "Offline") := by
  simp only [markOffline]
  rw [mapGet_mapSet_other _ "Error" "Status" _ (by decide), mapGet_mapSet_same]

theorem markOffline_Error (Error : String) (pk : Package) :
    mapGet (markOffline Error pk).Body.Info "Error" = some (Value.str Error) := by
  simp only [markOffline]
  rw [mapGet_mapSet_same]

theorem markOffline_Name (Error : String) (pk : Package) :
    mapGet (markOffline Error pk).Body.Info "Name" = mapGet pk.Body.Info "Name" := by
  simp only [markOffline]
  rw [mapGet_mapSet_other _ "Error" "Name" _ (by decide),
    mapGet_mapSet_other _ "Status" "Name" _ (by decide)]

theorem isListenerAdd_markOffline (E : Env) (Name Error : String) (pk : Package) :
    isListenerAdd E Name (markOffline Error pk) = isListenerAdd E Name pk := by
  have hn := markOffline_Name Error pk
  unfold isListenerAdd
  rw [hn]
  rfl

theorem markOffline_idem (Error : String) (pk : Package) :
    markOffline Error (markOffline Error pk) = markOffline Error pk := by
  have h1 := markOffline_Status Error pk
  have h2 := markOffline_Error Error pk
  have e1 : mapSet (markOffline Error pk).Body.Info "Status" (Value.str "Offline") =
      (markOffline Error pk).Body.Info := mapSet_of_mapGet _ _ _ h1
  have e2 : mapSet (markOffline Error pk).Body.Info "Error" (Value.str Error) =
      (markOffline Error pk).Body.Info := mapSet_of_mapGet _ _ _ h2
  show ({ (markOffline Error pk) with Body := { (markOffline Error pk).Body with
      Info := mapSet (mapSet (markOffline Error pk).Body.Info "Status" (Value.str "Offline"))
        "Error" (Value.str Error) } } : Package) = markOffline Error pk
  rw [e1, e2]

theorem patchLoop_eq_map (E : Env) (ListenerName Error : String) (l : List Package) :
    patchLoop E ListenerName Error l =
      l.map (fun pk => if isListenerAdd E ListenerName pk then markOffline Error pk else pk) := by
  induction l with
  | nil => rfl
  | cons pk rest ih => simp [patchLoop, ih]

theorem patchLoop_idem (E : Env) (ListenerName Error : String) (l : List Package) :
    patchLoop E ListenerName Error (patchLoop E ListenerName Error l) =
      patchLoop E ListenerName Error l := by
  induction l with
  | nil => rfl
  | cons pk rest ih =>
    by_cases hp : isListenerAdd E ListenerName pk = true
    · simp [patchLoop, hp, ih, isListenerAdd_markOffline, markOffline_idem]
    · simp [patchLoop, hp, ih]

theorem EventListenerError_EventsList (E : Env) (ListenerName Error : String)
    (t : Teamserver) :
    (EventListenerError E ListenerName Error t).EventsList =
      patchLoop E ListenerName Error t.EventsList ++
        patchLoop E ListenerName Error [E.ListenerError "" ListenerName Error] := by
  simp [EventListenerError, EventAppend, EventBroadcast, record, patchLoop_eq_map]

/-- Claim C4: when the log holds, at index `i`, a record with `Head.Event = Listener`,
`Body.SubEvent = Add` and `Info["Name"] = name`, then after `EventListenerError(name, err)`
the record at index `i` is still that `Add` record for `name` and has
`Info["Status"] = "Offline"` and `Info["Error"]` equal to the text of `err`; the log is one
record longer, and the new last record is the `ListenerError` event built for `name` and
`err` (an event that is not itself a `Listener`/`Add` record for `name`). -/
theorem EventListenerError_patches (E : Env) (t : Teamserver) (name err : String) (i : Nat)
    (pk : Package) (hi : t.EventsList[i]? = some pk) (hadd : isListenerAdd E name pk = true)
    (hnew : isListenerAdd E name (E.ListenerError "" name err) = false) :
    (∃ pk1, (EventListenerError E name err t).EventsList[i]? = some pk1 ∧
        isListenerAdd E name pk1 = true ∧
        mapGet pk1.Body.Info "Status" = some (Value.str "Offline") ∧
        mapGet pk1.Body.Info "Error" = some (Value.str err)) ∧
      (EventListenerError E name err t).EventsList.length = t.EventsList.length + 1 ∧
      (EventListenerError E name err t).EventsList[t.EventsList.length]? =
        some (E.ListenerError "" name err) := by
  have hlog := EventListenerError_EventsList E name err t
  have hlast : patchLoop E name err [E.ListenerError "" name err] =
      [E.ListenerError "" name err] := by
    simp [patchLoop, hnew]
  rw [hlast] at hlog
  have hlen : (patchLoop E name err t.EventsList).length = t.EventsList.length := by
    simp [patchLoop_eq_map]
  have hilt : i < t.EventsList.length := by
    rcases Nat.lt_or_ge i t.EventsList.length with h | h
    · exact h
    · rw [List.getElem?_eq_none h] at hi
      cases hi
  refine ⟨⟨markOffline err pk, ?_, ?_, markOffline_Status err pk, markOffline_Error err pk⟩,
    ?_, ?_⟩
  · rw [hlog, List.getElem?_append_left (by omega), patchLoop_eq_map, List.getElem?_map, hi]
    simp [hadd]
  · rw [isListenerAdd_markOffline, hadd]
  · rw [hlog]
    simp [hlen]
  · rw [hlog, List.getElem?_append_right (by omega), hlen]
    simp

/-- On the server that runs `"A"`, whose log holds the `Add` record of `"A"` at index 0, the
error "connection reset" is reported for `"A"`. -/
theorem EventListenerError_patches_witness :
    serverA.EventsList[0]? = some (addEvent "A") ∧
      isListenerAdd demoEnv "A" (addEvent "A") = true ∧
      isListenerAdd demoEnv "A" (demoEnv.ListenerError "" "A" "connection reset") = false ∧
      (∃ pk1, (EventListenerError demoEnv "A" "connection reset" serverA).EventsList[0]? =
          some pk1 ∧
        isListenerAdd demoEnv "A" pk1 = true ∧
        mapGet pk1.Body.Info "Status" = some (Value.str "Offline") ∧
        mapGet pk1.Body.Info "Error" = some (Value.str "connection reset")) :=
  ⟨by decide, by decide, by decide,
    (EventListenerError_patches demoEnv serverA "A" "connection reset" 0 (addEvent "A")
      (by decide) (by decide) (by decide)).1⟩

/-- Claim C5: calling `EventListenerError(name, err)` twice in a row on a log of length `n`
gives a log of length `n + 2`; every `Listener`/`Add` record for `name` of the log after the
first call is found at the same index after the second call with the same `Status` and
`Error`; the second call leaves all the records of the log after the first call as they are
and appends, once more, the record the first call appended, which is the `ListenerError`
event for `name` and `err` when that event is not itself an `Add` record for `name`. -/
theorem EventListenerError_twice (E : Env) (t : Teamserver) (name err : String) :
    (EventListenerError E name err (EventListenerError E name err t)).EventsList.length =
        t.EventsList.length + 2 ∧
      (∀ (i : Nat) (pk1 : Package),
        (EventListenerError E name err t).EventsList[i]? = some pk1 →
        isListenerAdd E name pk1 = true →
        ∃ pk2, (EventListenerError E name err
            (EventListenerError E name err t)).EventsList[i]? = some pk2 ∧
          mapGet pk2.Body.Info "Status" = mapGet pk1.Body.Info "Status" ∧
          mapGet pk2.Body.Info "Error" = mapGet pk1.Body.Info "Error") ∧
      (∃ q, (EventListenerError E name err t).EventsList =
          patchLoop E name err t.EventsList ++ [q] ∧
        (EventListenerError E name err (EventListenerError E name err t)).EventsList =
          (EventListenerError E name err t).EventsList ++ [q] ∧
        (isListenerAdd E name (E.ListenerError "" name err) = false →
          q = E.ListenerError "" name err)) := by
  have h1 := EventListenerError_EventsList E name err t
  have h2 := EventListenerError_EventsList E name err (EventListenerError E name err t)
  have hq : patchLoop E name err [E.ListenerError "" name err] =
      [if isListenerAdd E name (E.ListenerError "" name err) then
        markOffline err (E.ListenerError "" name err) else E.ListenerError "" name err] := by
    simp [patchLoop]
  have hstep : (EventListenerError E name err (EventListenerError E name err t)).EventsList =
      (EventListenerError E name err t).EventsList ++
        patchLoop E name err [E.ListenerError "" name err] := by
    rw [h2, h1]
    have happ : ∀ a b : List Package, patchLoop E name err (a ++ b) =
        patchLoop E name err a ++ patchLoop E name err b := by
      intro a b
      simp [patchLoop_eq_map]
    rw [happ, patchLoop_idem, patchLoop_idem]
  have hlen : (patchLoop E name err t.EventsList).length = t.EventsList.length := by
    simp [patchLoop_eq_map]
  refine ⟨?_, ?_, ?_⟩
  · rw [hstep, h1, hq]
    simp [hlen]
  · intro i pk1 hi _
    refine ⟨pk1, ?_, rfl, rfl⟩
    have hilt : i < (EventListenerError E name err t).EventsList.length := by
      rcases Nat.lt_or_ge i (EventListenerError E name err t).EventsList.length with h | h
      · exact h
      · rw [List.getElem?_eq_none h] at hi
        cases hi
    rw [hstep, List.getElem?_append_left hilt, hi]
  · refine ⟨if isListenerAdd E name (E.ListenerError "" name err) then
        markOffline err (E.ListenerError "" name err) else E.ListenerError "" name err,
      ?_, ?_, ?_⟩
    · rw [h1, hq]
    · rw [hstep, hq]
    · intro hnew
      simp [hnew]

/-! ## Uniqueness of listener names -/

theorem nameScan_pass_inv (E : Env) (ListenerType : Int) (info : Info) (n : String)
    (hn : declaredName E ListenerType info = some n) (ls : List Listener)
    (hpass : nameScan E ListenerType info ls = Scan.pass) : ∀ l ∈ ls, l.Name ≠ n := by
  induction ls with
  | nil => simp
  | cons a rest ih =>
    by_cases ha : n = a.Name
    · simp [nameScan, hn, ha] at hpass
    · simp only [nameScan, hn, ha, if_false] at hpass
      intro l hl
      rcases List.mem_cons.mp hl with h | h
      · exact h ▸ (fun hc => ha hc.symm)
      · exact ih hpass l h

theorem startBackend_some (E : Env) (ListenerType : Int) (info : Info) (t t1 : Teamserver)
    (ListenerConfig : Handle) (ListenerName : String)
    (h : startBackend E ListenerType info t = some (t1, ListenerConfig, ListenerName)) :
    t1.Listeners = t.Listeners ∧ declaredName E ListenerType info = some ListenerName := by
  unfold startBackend at h
  unfold declaredName
  by_cases h1 : ListenerType = E.LISTENER_HTTP
  · simp only [h1, if_true] at h ⊢
    cases info with
    | http c =>
      simp only [Option.some.injEq, Prod.mk.injEq] at h
      obtain ⟨rfl, -, rfl⟩ := h
      exact ⟨rfl, rfl⟩
    | smb c => simp at h
    | ext c => simp at h
    | other n => simp at h
  · simp only [h1, if_false] at h ⊢
    by_cases h2 : ListenerType = E.LISTENER_PIVOT_SMB
    · simp only [h2, if_true] at h ⊢
      cases info with
      | smb c =>
        simp only [Option.some.injEq, Prod.mk.injEq] at h
        obtain ⟨rfl, -, rfl⟩ := h
        exact ⟨rfl, rfl⟩
      | http c => simp at h
      | ext c => simp at h
      | other n => simp at h
    · simp only [h2, if_false] at h ⊢
      by_cases h3 : ListenerType = E.LISTENER_EXTERNAL
      · simp only [h3, if_true] at h ⊢
        cases info with
        | ext c =>
          simp only [Option.some.injEq, Prod.mk.injEq] at h
          obtain ⟨rfl, -, rfl⟩ := h
          exact ⟨rfl, rfl⟩
        | http c => simp at h
        | smb c => simp at h
        | other n => simp at h
      · simp only [h3, if_false, Option.some.injEq, Prod.mk.injEq] at h ⊢
        obtain ⟨rfl, -, rfl⟩ := h
        exact ⟨rfl, rfl⟩

/-- The listener list after `ListenerStart`: unchanged, or longer by one listener that carries
the declared name of the request, in which case the name check has passed. -/
theorem ListenerStart_Listeners (E : Env) (ListenerType : Int) (info : Info)
    (t : Teamserver) :
    (ListenerStart E ListenerType info t).1.Listeners = t.Listeners ∨
      ∃ l, (ListenerStart E ListenerType info t).1.Listeners = t.Listeners ++ [l] ∧
        declaredName E ListenerType info = some l.Name ∧
        nameScan E ListenerType info t.Listeners = Scan.pass := by
  unfold ListenerStart
  cases hscan : nameScan E ListenerType info t.Listeners with
  | panic => exact Or.inl rfl
  | found => exact Or.inl rfl
  | pass =>
    cases hb : startBackend E ListenerType info t with
    | none => exact Or.inl rfl
    | some res =>
      obtain ⟨t1, ListenerConfig, ListenerName⟩ := res
      obtain ⟨hl, hn⟩ := startBackend_some E ListenerType info t t1 ListenerConfig ListenerName hb
      exact Or.inr ⟨{ Name := ListenerName, Type_ := ListenerType, Config := ListenerConfig },
        by simp [addListener, hl], hn, rfl⟩

theorem ListenerStart_names_nodup (E : Env) (ListenerType : Int) (info : Info)
    (t : Teamserver) (h : (t.Listeners.map (fun l => l.Name)).Nodup) :
    ((ListenerStart E ListenerType info t).1.Listeners.map (fun l => l.Name)).Nodup := by
  rcases ListenerStart_Listeners E ListenerType info t with heq | ⟨l, heq, hname, hpass⟩
  · rw [heq]
    exact h
  · rw [heq, List.map_append, List.map_singleton]
    have hfresh := nameScan_pass_inv E ListenerType info l.Name hname t.Listeners hpass
    refine List.nodup_append.mpr ⟨h, List.nodup_singleton _, ?_⟩
    intro n hn1 hn2
    obtain ⟨x, hx, hxn⟩ := List.mem_map.mp hn1
    rw [List.mem_singleton] at hn2
    exact hfresh x hx (hxn.trans hn2)

/-- The listener list after `ListenerRemove`: the first listener of that name is cut out. -/
theorem ListenerRemove_Listeners (E : Env) (Name : String) (t : Teamserver) :
    (ListenerRemove E Name t).1.Listeners =
      t.Listeners.eraseP (fun l => decide (l.Name = Name)) := by
  by_cases h : ∃ l ∈ t.Listeners, l.Name = Name
  · obtain ⟨pre, l, post, hls, hpre, hl⟩ := exists_first_named Name t.Listeners h
    have hscan : removeScan E Name t 0 t.Listeners = removeBody E Name t pre.length l := by
      have := removeScan_hit E Name t pre l post hpre hl 0
      rw [hls]
      simpa using this
    simp only [ListenerRemove, hscan, removeBody_Listeners]
    rw [hls, eraseP_first_named Name pre post l hpre hl]
    simp [List.take_left', List.drop_left']
  · have hno : ∀ l ∈ t.Listeners, l.Name ≠ Name := fun l hl hn => h ⟨l, hl, hn⟩
    have hno2 : ∀ l ∈ t.Listeners, ¬ (decide (l.Name = Name)) = true := by
      intro l hl
      simpa using hno l hl
    simp [ListenerRemove, removeScan_absent E Name t t.Listeners hno,
      List.eraseP_of_forall_not hno2]

theorem editLoop_names (Config : Info) (ls : List Listener) :
    (editLoop Config ls).1.map (fun l => l.Name) = ls.map (fun l => l.Name) := by
  induction ls with
  | nil => rfl
  | cons l rest ih =>
    cases Config with
    | http c =>
      by_cases hl : l.Name = c.Name
      · cases hc : l.Config with
        | HTTP h => simpa [editLoop, hl, hc] using ih
        | SMB s => simp [editLoop, hl, hc]
        | External e => simp [editLoop, hl, hc]
        | nil => simp [editLoop, hl, hc]
      · simpa [editLoop, hl] using ih
    | smb c => simp [editLoop]
    | ext c => simp [editLoop]
    | other n => simp [editLoop]

theorem ListenerEdit_names (E : Env) (Type_ : Int) (Config : Info) (t : Teamserver) :
    (ListenerEdit E Type_ Config t).1.Listeners.map (fun l => l.Name) =
      t.Listeners.map (fun l => l.Name) := by
  unfold ListenerEdit
  by_cases h : Type_ = E.LISTENER_HTTP
  · simp only [h, if_true]
    exact editLoop_names Config t.Listeners
  · simp [h]

theorem names_nodup_of_reachable (E : Env) (t : Teamserver) (h : Reachable E t) :
    (t.Listeners.map (fun l => l.Name)).Nodup := by
  induction h with
  | empty t h0 => simp [h0]
  | start ListenerType info t _ ih => exact ListenerStart_names_nodup E ListenerType info t ih
  | remove Name t _ ih =>
    rw [ListenerRemove_Listeners]
    exact List.Nodup.sublist ((List.eraseP_sublist t.Listeners).map (fun l => l.Name)) ih
  | edit Type_ Config t _ ih =>
    rw [ListenerEdit_names]
    exact ih

/-- Claim C2: in every state reachable from a registry without listeners by calls of
`ListenerStart`, `ListenerRemove` and `ListenerEdit`, whatever their arguments and whether
they return or panic, no two listeners of `t.Listeners` have the same `Name`. -/
theorem Listener_names_unique (E : Env) (t : Teamserver) (h : Reachable E t) :
    (t.Listeners.map (fun l => l.Name)).Nodup ∧
      List.Pairwise (fun a b => a.Name ≠ b.Name) t.Listeners := by
  have hnd := names_nodup_of_reachable E t h
  exact ⟨hnd, List.pairwise_map.mp hnd⟩

/-- The server with the listeners `"A"` and `"B"` is reached by two starts from the empty
one, and its names are distinct. -/
theorem Listener_names_unique_witness :
    Reachable demoEnv serverAB ∧ (serverAB.Listeners.map (fun l => l.Name)).Nodup :=
  ⟨Reachable.start 1 _ serverA (Reachable.start 1 _ emptyServer (Reachable.empty _ rfl)),
    (Listener_names_unique demoEnv serverAB
      (Reachable.start 1 _ serverA
        (Reachable.start 1 _ emptyServer (Reachable.empty _ rfl)))).1⟩

/-! ## Accounting of started and stopped names -/

theorem startBackend_request (E : Env) (r : Request) (t : Teamserver) :
    (startBackend E (r.Type_ E) r.info t).isSome = true := by
  obtain ⟨h12, h13, h23⟩ := E.cases_distinct
  cases r with
  | HTTP c => simp [startBackend, Request.Type_, Request.info]
  | SMB c => simp [startBackend, Request.Type_, Request.info, Ne.symm h12]
  | External c => simp [startBackend, Request.Type_, Request.info, Ne.symm h13, Ne.symm h23]

theorem ListenerStart_request_fresh (E : Env) (t : Teamserver) (r : Request)
    (h : ∀ l ∈ t.Listeners, l.Name ≠ r.Name) :
    (ListenerStart E (r.Type_ E) r.info t).1.Listeners.map (fun l => l.Name) =
      t.Listeners.map (fun l => l.Name) ++ [r.Name] := by
  have hscan := nameScan_pass E (r.Type_ E) r.info r.Name (declaredName_request E r)
    t.Listeners h
  obtain ⟨res, hb⟩ := Option.isSome_iff_exists.mp (startBackend_request E r t)
  obtain ⟨t1, ListenerConfig, ListenerName⟩ := res
  obtain ⟨hl, hn⟩ := startBackend_some E (r.Type_ E) r.info t t1 ListenerConfig ListenerName hb
  rw [declaredName_request] at hn
  have hname : r.Name = ListenerName := Option.some.inj hn
  simp [ListenerStart, hscan, hb, addListener, hl, hname]

theorem names_eraseP (n : String) (ls : List Listener) :
    (ls.eraseP (fun l => decide (l.Name = n))).map (fun l => l.Name) =
      (ls.map (fun l => l.Name)).erase n := by
  induction ls with
  | nil => rfl
  | cons a rest ih =>
    by_cases ha : a.Name = n
    · simp [List.eraseP_cons_of_pos, ha]
    · have hna : ¬ n = a.Name := fun h => ha h.symm
      simp [List.eraseP_cons, List.erase_cons, ha, hna, ih]

theorem runCalls_snoc (E : Env) (cs : List Call) (c : Call) (t : Teamserver) :
    runCalls E (cs ++ [c]) t = Call.run E (runCalls E cs t) c := by
  simp [runCalls, List.foldl_append]

theorem startedNames_snoc_start (cs : List Call) (r : Request) :
    startedNames (cs ++ [Call.Start r]) = startedNames cs ++ [r.Name] := by
  induction cs with
  | nil => rfl
  | cons c rest ih =>
    cases c with
    | Start r2 => simp [startedNames, ih]
    | Stop n => simp [startedNames, ih]

theorem startedNames_snoc_stop (cs : List Call) (n : String) :
    startedNames (cs ++ [Call.Stop n]) = startedNames cs := by
  induction cs with
  | nil => rfl
  | cons c rest ih =>
    cases c with
    | Start r2 => simp [startedNames, ih]
    | Stop m => simp [startedNames, ih]

theorem runCalls_reachable (E : Env) (t0 : Teamserver) (h0 : t0.Listeners = [])
    (cs : List Call) : Reachable E (runCalls E cs t0) := by
  induction cs using List.reverseRecOn with
  | nil => exact Reachable.empty t0 h0
  | append_singleton cs c ih =>
    rw [runCalls_snoc]
    cases c with
    | Start r => exact Reachable.start _ _ _ ih
    | Stop n => exact Reachable.remove _ _ ih

theorem names_subset_started (E : Env) (t0 : Teamserver) (h0 : t0.Listeners = [])
    (cs : List Call) :
    ∀ n ∈ (runCalls E cs t0).Listeners.map (fun l => l.Name), n ∈ startedNames cs := by
  induction cs using List.reverseRecOn with
  | nil => simp [runCalls, h0]
  | append_singleton cs c ih =>
    intro n hn
    rw [runCalls_snoc] at hn
    cases c with
    | Start r =>
      rw [startedNames_snoc_start]
      simp only [Call.run] at hn
      rcases ListenerStart_Listeners E (r.Type_ E) r.info (runCalls E cs t0) with
        heq | ⟨l, heq, hname, _⟩
      · rw [heq] at hn
        exact List.mem_append_left _ (ih n hn)
      · rw [heq, List.map_append, List.map_singleton] at hn
        rw [declaredName_request] at hname
        rcases List.mem_append.mp hn with h | h
        · exact List.mem_append_left _ (ih n h)
        · rw [← Option.some.inj hname] at h
          exact List.mem_append_right _ h
    | Stop m =>
      rw [startedNames_snoc_stop]
      simp only [Call.run] at hn
      rw [ListenerRemove_Listeners] at hn
      have hsub := (List.eraseP_sublist (p := fun l => decide (l.Name = m))
        (runCalls E cs t0).Listeners).map (fun l : Listener => l.Name)
      exact ih n (hsub.subset hn)

theorem startedNotStopped_snoc_stop (cs : List Call) (m n : String) :
    StartedNotStopped (cs ++ [Call.Stop m]) n ↔ StartedNotStopped cs n ∧ n ≠ m := by
  constructor
  · rintro ⟨before, after, r, heq, hr, hnot⟩
    rcases List.eq_nil_or_concat after with hnil | ⟨after2, x, hafter⟩
    · subst hnil
      obtain ⟨_, hx⟩ := List.append_inj' heq (by simp)
      simp at hx
    · subst hafter
      have heq2 : cs ++ [Call.Stop m] = (before ++ Call.Start r :: after2) ++ [x] := by
        simpa using heq
      obtain ⟨hcs, hx⟩ := List.append_inj' heq2 (by simp)
      simp only [List.cons.injEq, and_true] at hx
      subst hx
      refine ⟨⟨before, after2, r, hcs, hr, ?_⟩, ?_⟩
      · intro hmem
        exact hnot (by simp [hmem])
      · intro hnm
        exact hnot (by simp [hnm])
  · rintro ⟨⟨before, after, r, heq, hr, hnot⟩, hnm⟩
    refine ⟨before, after ++ [Call.Stop m], r, by simp [heq], hr, ?_⟩
    intro hmem
    rcases List.mem_append.mp hmem with h | h
    · exact hnot h
    · simp at h
      exact hnm h

theorem startedNotStopped_snoc_start (cs : List Call) (r : Request) (n : String) :
    StartedNotStopped (cs ++ [Call.Start r]) n ↔ StartedNotStopped cs n ∨ n = r.Name := by
  constructor
  · rintro ⟨before, after, r2, heq, hr, hnot⟩
    rcases List.eq_nil_or_concat after with hnil | ⟨after2, x, hafter⟩
    · subst hnil
      obtain ⟨_, hx⟩ := List.append_inj' heq (by simp)
      simp only [List.cons.injEq, Call.Start.injEq, and_true] at hx
      exact Or.inr (by rw [hx, hr])
    · subst hafter
      have heq2 : cs ++ [Call.Start r] = (before ++ Call.Start r2 :: after2) ++ [x] := by
        simpa using heq
      obtain ⟨hcs, _⟩ := List.append_inj' heq2 (by simp)
      refine Or.inl ⟨before, after2, r2, hcs, hr, ?_⟩
      intro hmem
      exact hnot (by simp [hmem])
  · rintro (⟨before, after, r2, heq, hr, hnot⟩ | hn)
    · refine ⟨before, after ++ [Call.Start r], r2, by simp [heq], hr, ?_⟩
      intro hmem
      rcases List.mem_append.mp hmem with h | h
      · exact hnot h
      · simp at h
    · exact ⟨cs, [], r, rfl, hn.symm, by simp⟩

/-- Claim C3: after any finite sequence of `ListenerStart` and `ListenerRemove` calls on a
registry without listeners, the started names being pairwise distinct, a name is the `Name`
of a listener of `t.Listeners` exactly when it was started and not subsequently stopped. -/
theorem registry_accounting (E : Env) (t0 : Teamserver) (h0 : t0.Listeners = [])
    (calls : List Call) (hd : (startedNames calls).Nodup) (n : String) :
    n ∈ (runCalls E calls t0).Listeners.map (fun l => l.Name) ↔
      StartedNotStopped calls n := by
  revert hd n
  induction calls using List.reverseRecOn with
  | nil =>
    intro _ n
    constructor
    · intro hn
      simp [runCalls, h0] at hn
    · rintro ⟨before, after, r, heq, _, _⟩
      simp at heq
  | append_singleton cs c ih =>
    intro hd n
    rw [runCalls_snoc]
    cases c with
    | Start r =>
      rw [startedNames_snoc_start] at hd
      obtain ⟨hd1, -, hdis⟩ := List.nodup_append.mp hd
      have hnew : r.Name ∉ startedNames cs := fun hmem => hdis hmem (List.mem_singleton_self _)
      have hfresh : ∀ l ∈ (runCalls E cs t0).Listeners, l.Name ≠ r.Name := by
        intro l hl hln
        apply hnew
        rw [← hln]
        exact names_subset_started E t0 h0 cs l.Name (List.mem_map_of_mem _ hl)
      simp only [Call.run]
      rw [ListenerStart_request_fresh E (runCalls E cs t0) r hfresh,
        startedNotStopped_snoc_start, List.mem_append, List.mem_singleton, ih hd1 n]
    | Stop m =>
      rw [startedNames_snoc_stop] at hd
      have hnd := names_nodup_of_reachable E (runCalls E cs t0) (runCalls_reachable E t0 h0 cs)
      simp only [Call.run]
      rw [ListenerRemove_Listeners, names_eraseP, hnd.mem_erase_iff,
        startedNotStopped_snoc_stop, ih hd n]
      exact and_comm

/-- The calls `Start A`, `Start B`, `Stop A` on the empty server: `"B"` is the name left. -/
theorem registry_accounting_witness :
    (startedNames [Call.Start (Request.HTTP (httpConfig "A" ["/a"])),
        Call.Start (Request.SMB ⟨"B", []⟩), Call.Stop "A"]).Nodup ∧
      ("B" ∈ (runCalls demoEnv [Call.Start (Request.HTTP (httpConfig "A" ["/a"])),
          Call.Start (Request.SMB ⟨"B", []⟩), Call.Stop "A"] emptyServer).Listeners.map
            (fun l => l.Name) ↔
        StartedNotStopped [Call.Start (Request.HTTP (httpConfig "A" ["/a"])),
          Call.Start (Request.SMB ⟨"B", []⟩), Call.Stop "A"] "B") :=
  ⟨by decide, registry_accounting demoEnv emptyServer rfl _ (by decide) "B"⟩

/-! ## `AgentExists`: where the scan stops -/

theorem agentExistsLoop_cons_ok (id : Int) (a : Agent) (rest : List Agent)
    (ha : (ParseInt a.NameID).err = none) (hne : ¬ id = (ParseInt a.NameID).val) :
    agentExistsLoop id (a :: rest) = agentExistsLoop id rest := by
  simp [agentExistsLoop, ha, hne]

theorem agentExistsLoop_cons_match (id : Int) (a : Agent) (rest : List Agent)
    (ha : parsesTo id a = true) : agentExistsLoop id (a :: rest) = true := by
  simp only [parsesTo, decide_eq_true_eq] at ha
  simp [agentExistsLoop, ha.1, ha.2]

theorem agentExistsLoop_cons_bad (id : Int) (a : Agent) (rest : List Agent)
    (ha : (ParseInt a.NameID).err ≠ none) : agentExistsLoop id (a :: rest) = false := by
  simp [agentExistsLoop, ha]

theorem parsesTo_false_of_ok (id : Int) (a : Agent) (ha : (ParseInt a.NameID).err = none)
    (hp : parsesTo id a = false) : ¬ id = (ParseInt a.NameID).val := by
  intro hid
  simp [parsesTo, ha, hid] at hp

/-- Claim C11 as stated fails on the code: in the registry `1f`, `zz` the second identity
does not parse, and `AgentExists(31)` is true, because the scan returns at the first entry,
which matches, before it reaches the unparsable one. -/
theorem AgentExists_true_with_unparsable :
    ¬ (∀ (t : Teamserver) (id : Int),
        (∃ a ∈ t.Agents, (ParseInt a.NameID).err ≠ none) → AgentExists t id = false) := by
  intro h
  have h1 := h { emptyServer with Agents := [⟨"1f", 1⟩, ⟨"zz", 2⟩] } 31
    ⟨⟨"zz", 2⟩, by decide, by decide⟩
  revert h1
  decide

theorem agentExistsLoop_false_of_bad (id : Int) (before after : List Agent) (a : Agent)
    (hbad : (ParseInt a.NameID).err ≠ none)
    (hbefore : ∀ b ∈ before, parsesTo id b = false) :
    agentExistsLoop id (before ++ a :: after) = false := by
  induction before with
  | nil => exact agentExistsLoop_cons_bad id a after hbad
  | cons b rest ih =>
    have hrest : ∀ x ∈ rest, parsesTo id x = false :=
      fun x hx => hbefore x (List.mem_cons_of_mem b hx)
    by_cases hb : (ParseInt b.NameID).err = none
    · have hne := parsesTo_false_of_ok id b hb (hbefore b (List.mem_cons_self b rest))
      rw [List.cons_append, agentExistsLoop_cons_ok id b _ hb hne]
      exact ih hrest
    · rw [List.cons_append]
      exact agentExistsLoop_cons_bad id b _ hb

theorem agentExistsLoop_true_of_match (id : Int) (before after : List Agent) (m : Agent)
    (hm : parsesTo id m = true) (hbefore : ∀ b ∈ before, (ParseInt b.NameID).err = none) :
    agentExistsLoop id (before ++ m :: after) = true := by
  induction before with
  | nil => exact agentExistsLoop_cons_match id m after hm
  | cons b rest ih =>
    have hb := hbefore b (List.mem_cons_self b rest)
    have hrest : ∀ x ∈ rest, (ParseInt x.NameID).err = none :=
      fun x hx => hbefore x (List.mem_cons_of_mem b hx)
    by_cases hid : id = (ParseInt b.NameID).val
    · rw [List.cons_append]
      exact agentExistsLoop_cons_match id b _ (by simp [parsesTo, hb, hid.symm])
    · rw [List.cons_append, agentExistsLoop_cons_ok id b _ hb hid]
      exact ih hrest

/-- Claim C11 as amended: in a registry that holds an entry `a` whose `NameID` fails to parse,
`AgentExists(id)` returns false when no entry before `a` parses to `id`, whatever follows `a`,
an entry that matches `id` included; and it returns true when some entry parses to `id` and
every entry before that one parses, that is, when the match precedes every unparsable
entry. -/
theorem AgentExists_fails_closed (t : Teamserver) (id : Int) (before after : List Agent)
    (a : Agent) (hsplit : t.Agents = before ++ a :: after)
    (hbad : (ParseInt a.NameID).err ≠ none) :
    ((∀ b ∈ before, parsesTo id b = false) → AgentExists t id = false) ∧
      (∀ (pre post : List Agent) (m : Agent), t.Agents = pre ++ m :: post →
        parsesTo id m = true → (∀ b ∈ pre, (ParseInt b.NameID).err = none) →
        AgentExists t id = true) := by
  constructor
  · intro hbefore
    unfold AgentExists
    rw [hsplit]
    exact agentExistsLoop_false_of_bad id before after a hbad hbefore
  · intro pre post m hm hparse hpre
    unfold AgentExists
    rw [hm]
    exact agentExistsLoop_true_of_match id pre post m hparse hpre

/-- In the registry `2a`, `zz`, `1f` the identity `zz` does not parse. The lookup of 31 is
false: `1f` matches, but comes after `zz`. The lookup of 42 is true: `2a` matches and comes
before `zz`. -/
theorem AgentExists_fails_closed_witness :
    (ParseInt "zz").err ≠ none ∧ (∀ b ∈ [(⟨"2a", 1⟩ : Agent)], parsesTo 31 b = false) ∧
      AgentExists { emptyServer with Agents := [⟨"2a", 1⟩, ⟨"zz", 2⟩, ⟨"1f", 3⟩] } 31 = false ∧
      parsesTo 42 ⟨"2a", 1⟩ = true ∧
      AgentExists { emptyServer with Agents := [⟨"2a", 1⟩, ⟨"zz", 2⟩, ⟨"1f", 3⟩] } 42 = true :=
  ⟨by decide, by decide,
    (AgentExists_fails_closed { emptyServer with Agents := [⟨"2a", 1⟩, ⟨"zz", 2⟩, ⟨"1f", 3⟩] }
      31 [⟨"2a", 1⟩] [⟨"1f", 3⟩] ⟨"zz", 2⟩ rfl (by decide)).1 (by decide),
    by decide,
    (AgentExists_fails_closed { emptyServer with Agents := [⟨"2a", 1⟩, ⟨"zz", 2⟩, ⟨"1f", 3⟩] }
      42 [⟨"2a", 1⟩] [⟨"1f", 3⟩] ⟨"zz", 2⟩ rfl (by decide)).2 [] [⟨"zz", 2⟩, ⟨"1f", 3⟩]
      ⟨"2a", 1⟩ rfl (by decide) (by decide)⟩

theorem agentExistsLoop_iff (id : Int) (agents : List Agent) :
    agentExistsLoop id agents = true ↔
      ∃ (i : Nat) (a : Agent), agents[i]? = some a ∧
        (ParseInt a.NameID).err = none ∧ (ParseInt a.NameID).val = id ∧
        ∀ (j : Nat) (b : Agent), j < i → agents[j]? = some b →
          (ParseInt b.NameID).err = none := by
  induction agents with
  | nil => simp [agentExistsLoop]
  | cons x rest ih =>
    by_cases hx : (ParseInt x.NameID).err = none
    · by_cases hid : id = (ParseInt x.NameID).val
      · have hm : agentExistsLoop id (x :: rest) = true := by
          simp [agentExistsLoop, hx, hid]
        rw [hm]
        refine iff_of_true rfl ⟨0, x, List.getElem?_cons_zero, hx, hid.symm, ?_⟩
        intro j b hj
        exact absurd hj (Nat.not_lt_zero j)
      · rw [agentExistsLoop_cons_ok id x rest hx hid, ih]
        constructor
        · rintro ⟨i, a, hi, hok, hval, hpre⟩
          refine ⟨i + 1, a, by simpa using hi, hok, hval, ?_⟩
          intro j b hj hjb
          cases j with
          | zero =>
            simp only [List.getElem?_cons_zero, Option.some.injEq] at hjb
            rw [← hjb]
            exact hx
          | succ k =>
            simp only [List.getElem?_cons_succ] at hjb
            exact hpre k b (by omega) hjb
        · rintro ⟨i, a, hi, hok, hval, hpre⟩
          cases i with
          | zero =>
            simp only [List.getElem?_cons_zero, Option.some.injEq] at hi
            rw [← hi] at hval
            exact absurd hval.symm hid
          | succ k =>
            simp only [List.getElem?_cons_succ] at hi
            refine ⟨k, a, hi, hok, hval, ?_⟩
            intro j b hj hjb
            exact hpre (j + 1) b (by omega) (by simpa using hjb)
    · rw [agentExistsLoop_cons_bad id x rest hx]
      constructor
      · intro h
        cases h
      · rintro ⟨i, a, hi, hok, _, hpre⟩
        cases i with
        | zero =>
          simp only [List.getElem?_cons_zero, Option.some.injEq] at hi
          rw [← hi] at hok
          exact absurd hok hx
        | succ k => exact absurd (hpre 0 x (by omega) List.getElem?_cons_zero) hx

/-- Claim C19: `AgentExists(id)` is true exactly when there is an index `i` whose `NameID`
parses as base-16 to `id` while every `NameID` at an index before `i` parses without error;
the scan stops at the first entry that matches (true) or fails to parse (false). -/
theorem AgentExists_iff_index (t : Teamserver) (id : Int) :
    (AgentExists t id = true ↔
      ∃ (i : Nat) (a : Agent), t.Agents[i]? = some a ∧
        (ParseInt a.NameID).err = none ∧ (ParseInt a.NameID).val = id ∧
        ∀ (j : Nat) (b : Agent), j < i → t.Agents[j]? = some b →
          (ParseInt b.NameID).err = none) ∧
      (∀ (a : Agent) (rest : List Agent), t.Agents = a :: rest →
        AgentExists t id =
          if (ParseInt a.NameID).err ≠ none then false
          else if id = (ParseInt a.NameID).val then true
          else AgentExists { t with Agents := rest } id) ∧
      (t.Agents = [] → AgentExists t id = false) := by
  refine ⟨agentExistsLoop_iff id t.Agents, ?_, ?_⟩
  · intro a rest h
    simp [AgentExists, h, agentExistsLoop]
  · intro h
    simp [AgentExists, h, agentExistsLoop]

/-! ## A listener type that is none of the three -/

theorem declaredName_unknown (E : Env) (ListenerType : Int) (info : Info)
    (h1 : ListenerType ≠ E.LISTENER_HTTP) (h2 : ListenerType ≠ E.LISTENER_PIVOT_SMB)
    (h3 : ListenerType ≠ E.LISTENER_EXTERNAL) :
    declaredName E ListenerType info = some "" := by
  simp [declaredName, h1, h2, h3]

/-- Claim C20: a `ListenerType` other than HTTP, SMB_PIVOT and EXTERNAL is not rejected. On a
registry without a listener of the empty `Name`, `ListenerStart` returns no error and appends
a listener with `Name = ""`, that `Type` and the `nil` `Config`; the rest of the server, the
trace of effects included (nothing is started), is unchanged. A second call with such a type
on the resulting registry is answered with "listener already exists" and changes nothing. -/
theorem ListenerStart_unknown_type (E : Env) (t : Teamserver) (ListenerType : Int)
    (info : Info) (h1 : ListenerType ≠ E.LISTENER_HTTP)
    (h2 : ListenerType ≠ E.LISTENER_PIVOT_SMB) (h3 : ListenerType ≠ E.LISTENER_EXTERNAL)
    (hfree : ∀ l ∈ t.Listeners, l.Name ≠ "") :
    ListenerStart E ListenerType info t =
        ({ t with Listeners := t.Listeners ++
            [{ Name := "", Type_ := ListenerType, Config := Handle.nil }] }, Outcome.ok) ∧
      ∀ (Type2 : Int) (info2 : Info), Type2 ≠ E.LISTENER_HTTP →
        Type2 ≠ E.LISTENER_PIVOT_SMB → Type2 ≠ E.LISTENER_EXTERNAL →
        ListenerStart E Type2 info2 (ListenerStart E ListenerType info t).1 =
          ((ListenerStart E ListenerType info t).1,
            Outcome.error "listener already exists") := by
  have hscan := nameScan_pass E ListenerType info "" (declaredName_unknown E ListenerType info
    h1 h2 h3) t.Listeners hfree
  have hfirst : ListenerStart E ListenerType info t =
      ({ t with Listeners := t.Listeners ++
          [{ Name := "", Type_ := ListenerType, Config := Handle.nil }] }, Outcome.ok) := by
    simp [ListenerStart, hscan, startBackend, h1, h2, h3, addListener]
  refine ⟨hfirst, ?_⟩
  intro Type2 info2 g1 g2 g3
  rw [hfirst]
  have hfound := nameScan_found E Type2 info2 "" (declaredName_unknown E Type2 info2 g1 g2 g3)
    (t.Listeners ++ [{ Name := "", Type_ := ListenerType, Config := Handle.nil }])
    ⟨{ Name := "", Type_ := ListenerType, Config := Handle.nil }, by simp, rfl⟩
  simp [ListenerStart, hfound]

/-- On the server that runs `"A"`, a start of type 9 adds the listener without name and
without backend. -/
theorem ListenerStart_unknown_type_witness :
    (∀ l ∈ serverA.Listeners, l.Name ≠ "") ∧
      ListenerStart demoEnv 9 (Info.other 0) serverA =
        ({ serverA with Listeners := serverA.Listeners ++
            [{ Name := "", Type_ := 9, Config := Handle.nil }] }, Outcome.ok) :=
  ⟨by decide, (ListenerStart_unknown_type demoEnv serverA 9 (Info.other 0) (by decide)
    (by decide) (by decide) (by decide)).1⟩

/-! ## `ListenerEdit` on a listener without HTTP backend -/

/-- Claim C15 fails on the code: the server with the SMB pivot listener `"P"` is reached by one
`ListenerStart`, and `ListenerEdit(HTTP, cfg)` with `cfg.Name = "P"` ends in a panic, at the
type assertion `t.Listeners[i].Config.(*handlers.HTTP)`; the state at the panic is the one
before the call. -/
theorem ListenerEdit_panics_on_smb :
    Reachable demoEnv serverP ∧
      ListenerEdit demoEnv demoEnv.LISTENER_HTTP (Info.http (httpConfig "P" ["/x"])) serverP =
        (serverP, true) :=
  ⟨Reachable.start 2 _ emptyServer (Reachable.empty _ rfl), by decide⟩

/-! ## The callbacks that report events -/

/-- Claim C17: `AgentCallback(agentID, timestamp)` leaves the event log (and the listeners,
agents and endpoints) unchanged and issues one broadcast, to all clients (recipient `""`), of
the demon-output event built for `agentID`, the command `COMMAND_NOJOB` and the serialised
map `{"Output": timestamp}`. -/
theorem AgentCallback_broadcast_only (E : Env) (t : Teamserver) (agentID timestamp : String) :
    (AgentCallback E agentID timestamp t).EventsList = t.EventsList ∧
      (AgentCallback E agentID timestamp t).Trace = t.Trace ++
        [Effect.EventBroadcast ""
          (E.Demons_DemonOutput agentID E.COMMAND_NOJOB (E.Marshal [("Output", timestamp)]))] ∧
      (AgentCallback E agentID timestamp t).Listeners = t.Listeners ∧
      (AgentCallback E agentID timestamp t).Agents = t.Agents ∧
      (AgentCallback E agentID timestamp t).Endpoints = t.Endpoints := by
  simp [AgentCallback, EventBroadcast, record]

theorem append_broadcast_Trace (pk : Package) (t : Teamserver) :
    (EventBroadcast "" pk (EventAppend pk t)).Trace =
      t.Trace ++ [Effect.EventAppend pk, Effect.EventBroadcast "" pk] := by
  simp [EventBroadcast, EventAppend, record]

theorem append_broadcast_EventsList (pk : Package) (t : Teamserver) :
    (EventBroadcast "" pk (EventAppend pk t)).EventsList = t.EventsList ++ [pk] := by
  simp [EventBroadcast, EventAppend, record]

/-- Claim C18: each of the callbacks `EventAgentMark`, `EventListenerError`, `CallbackSize` and
`DemonOutput` adds to the trace of effects exactly one `EventAppend` followed by one
`EventBroadcast` to all clients (recipient `""`), both of the record it has built; for the
three that do not patch the log, the log is the old one with that record at its end. -/
theorem callbacks_append_then_broadcast (E : Env) (t : Teamserver) :
    (∀ (AgentID Mark : String),
      (EventAgentMark E AgentID Mark t).Trace = t.Trace ++
          [Effect.EventAppend (E.Demons_MarkAs AgentID Mark),
            Effect.EventBroadcast "" (E.Demons_MarkAs AgentID Mark)] ∧
        (EventAgentMark E AgentID Mark t).EventsList =
          t.EventsList ++ [E.Demons_MarkAs AgentID Mark]) ∧
      (∀ (ListenerName Error : String),
        (EventListenerError E ListenerName Error t).Trace = t.Trace ++
          [Effect.EventAppend (E.ListenerError "" ListenerName Error),
            Effect.EventBroadcast "" (E.ListenerError "" ListenerName Error)]) ∧
      (∀ (DemonInstance : Agent) (i : Int),
        (CallbackSize E DemonInstance i t).Trace = t.Trace ++
          [Effect.EventAppend (E.Demons_DemonOutput DemonInstance.NameID E.HAVOC_CONSOLE_MESSAGE
              (E.Marshal [("Type", "Good"),
                ("Message", "Send Task to Agent [" ++ toString i ++ " bytes]")])),
            Effect.EventBroadcast "" (E.Demons_DemonOutput DemonInstance.NameID
              E.HAVOC_CONSOLE_MESSAGE
              (E.Marshal [("Type", "Good"),
                ("Message", "Send Task to Agent [" ++ toString i ++ " bytes]")]))] ∧
        (CallbackSize E DemonInstance i t).EventsList = t.EventsList ++
          [E.Demons_DemonOutput DemonInstance.NameID E.HAVOC_CONSOLE_MESSAGE
            (E.Marshal [("Type", "Good"),
              ("Message", "Send Task to Agent [" ++ toString i ++ " bytes]")])]) ∧
      (∀ (DemonID : String) (CommandID : Int) (Output : List (String × String)),
        (DemonOutput E DemonID CommandID Output t).Trace = t.Trace ++
          [Effect.EventAppend (E.Demons_DemonOutput DemonID CommandID (E.Marshal Output)),
            Effect.EventBroadcast "" (E.Demons_DemonOutput DemonID CommandID
              (E.Marshal Output))] ∧
        (DemonOutput E DemonID CommandID Output t).EventsList = t.EventsList ++
          [E.Demons_DemonOutput DemonID CommandID (E.Marshal Output)]) := by
  refine ⟨?_, ?_, ?_, ?_⟩
  · intro AgentID Mark
    exact ⟨append_broadcast_Trace _ t, append_broadcast_EventsList _ t⟩
  · intro ListenerName Error
    simp [EventListenerError, EventBroadcast, EventAppend, record]
  · intro DemonInstance i
    exact ⟨append_broadcast_Trace _ t, append_broadcast_EventsList _ t⟩
  · intro DemonID CommandID Output
    exact ⟨append_broadcast_Trace _ t, append_broadcast_EventsList _ t⟩

/-! ## What `EventListenerError` leaves alone -/

theorem markOffline_other (Error : String) (pk : Package) (k : String) (h1 : k ≠ "Status")
    (h2 : k ≠ "Error") :
    mapGet (markOffline Error pk).Body.Info k = mapGet pk.Body.Info k := by
  simp only [markOffline]
  rw [mapGet_mapSet_other _ "Error" k _ (Ne.symm h2),
    mapGet_mapSet_other _ "Status" k _ (Ne.symm h1)]

theorem patchLoop_of_no_match (E : Env) (name err : String) (l : List Package)
    (h : ∀ p ∈ l, isListenerAdd E name p = false) : patchLoop E name err l = l := by
  induction l with
  | nil => rfl
  | cons p rest ih =>
    have hp := h p (List.mem_cons_self p rest)
    simp [patchLoop, hp, ih (fun q hq => h q (List.mem_cons_of_mem p hq))]

/-- Claim C16: `EventListenerError(name, err)` touches nothing but the patched fields. Every
record of the old log that is not a `Listener`/`Add` record for `name` is found unchanged at
its index; a record that is one keeps its index, its head, its sub-kind and the value of every
key of `Info` other than `"Status"` and `"Error"` (`"Name"` included); the log is one record
longer, the record added at the end being the `ListenerError` event; when the old log has no
`Add` record for `name`, the new log is the old one followed by that event. Listeners, agents
and endpoints are unchanged. -/
theorem EventListenerError_frame (E : Env) (t : Teamserver) (name err : String)
    (hnew : isListenerAdd E name (E.ListenerError "" name err) = false) :
    (∀ (i : Nat) (p : Package), t.EventsList[i]? = some p →
        isListenerAdd E name p = false →
        (EventListenerError E name err t).EventsList[i]? = some p) ∧
      (∀ (i : Nat) (p : Package), t.EventsList[i]? = some p →
        isListenerAdd E name p = true →
        ∃ q, (EventListenerError E name err t).EventsList[i]? = some q ∧
          q.Head = p.Head ∧ q.Body.SubEvent = p.Body.SubEvent ∧
          mapGet q.Body.Info "Name" = mapGet p.Body.Info "Name" ∧
          ∀ k, k ≠ "Status" → k ≠ "Error" → mapGet q.Body.Info k = mapGet p.Body.Info k) ∧
      (EventListenerError E name err t).EventsList.length = t.EventsList.length + 1 ∧
      (EventListenerError E name err t).EventsList[t.EventsList.length]? =
        some (E.ListenerError "" name err) ∧
      ((∀ p ∈ t.EventsList, isListenerAdd E name p = false) →
        (EventListenerError E name err t).EventsList =
          t.EventsList ++ [E.ListenerError "" name err]) ∧
      (EventListenerError E name err t).Listeners = t.Listeners ∧
      (EventListenerError E name err t).Agents = t.Agents ∧
      (EventListenerError E name err t).Endpoints = t.Endpoints := by
  have hlog := EventListenerError_EventsList E name err t
  have hlast : patchLoop E name err [E.ListenerError "" name err] =
      [E.ListenerError "" name err] := by
    simp [patchLoop, hnew]
  rw [hlast] at hlog
  have hlen : (patchLoop E name err t.EventsList).length = t.EventsList.length := by
    simp [patchLoop_eq_map]
  have hlt : ∀ (i : Nat) (p : Package), t.EventsList[i]? = some p →
      i < t.EventsList.length := by
    intro i p hi
    rcases Nat.lt_or_ge i t.EventsList.length with h | h
    · exact h
    · rw [List.getElem?_eq_none h] at hi
      cases hi
  refine ⟨?_, ?_, ?_, ?_, ?_, ?_, ?_, ?_⟩
  · intro i p hi hp
    have := hlt i p hi
    rw [hlog, List.getElem?_append_left (by omega), patchLoop_eq_map, List.getElem?_map, hi]
    simp [hp]
  · intro i p hi hp
    have := hlt i p hi
    refine ⟨markOffline err p, ?_, rfl, rfl, markOffline_Name err p, ?_⟩
    · rw [hlog, List.getElem?_append_left (by omega), patchLoop_eq_map, List.getElem?_map, hi]
      simp [hp]
    · intro k h1 h2
      exact markOffline_other err p k h1 h2
  · rw [hlog]
    simp [hlen]
  · rw [hlog, List.getElem?_append_right (by omega), hlen]
    simp
  · intro hnone
    rw [hlog, patchLoop_of_no_match E name err t.EventsList hnone]
  · simp [EventListenerError, EventAppend, EventBroadcast, record]
  · simp [EventListenerError, EventAppend, EventBroadcast, record]
  · simp [EventListenerError, EventAppend, EventBroadcast, record]

/-- On the server that runs `"A"` and `"B"`, an error reported for `"B"` leaves the `Add`
record of `"A"`, at index 0, as it is. -/
theorem EventListenerError_frame_witness :
    isListenerAdd demoEnv "B" (demoEnv.ListenerError "" "B" "connection reset") = false ∧
      serverAB.EventsList[0]? = some (addEvent "A") ∧
      isListenerAdd demoEnv "B" (addEvent "A") = false ∧
      (EventListenerError demoEnv "B" "connection reset" serverAB).EventsList[0]? =
        some (addEvent "A") :=
  ⟨by decide, by decide, by decide,
    (EventListenerError_frame demoEnv serverAB "B" "connection reset" (by decide)).1 0
      (addEvent "A") (by decide) (by decide)⟩

/-! ## `ListenerEdit` -/

theorem editLoop_length (Config : Info) (ls : List Listener) :
    (editLoop Config ls).1.length = ls.length := by
  have h := congrArg List.length (editLoop_names Config ls)
  simpa using h

theorem editLoop_types (Config : Info) (ls : List Listener) :
    (editLoop Config ls).1.map (fun l => l.Type_) = ls.map (fun l => l.Type_) := by
  induction ls with
  | nil => rfl
  | cons l rest ih =>
    cases Config with
    | http c =>
      by_cases hl : l.Name = c.Name
      · cases hc : l.Config with
        | HTTP h => simpa [editLoop, hl, hc] using ih
        | SMB s => simp [editLoop, hl, hc]
        | External e => simp [editLoop, hl, hc]
        | nil => simp [editLoop, hl, hc]
      · simpa [editLoop, hl] using ih
    | smb c => simp [editLoop]
    | ext c => simp [editLoop]
    | other n => simp [editLoop]

theorem editLoop_other_name (c : HTTPConfig) (ls : List Listener) (i : Nat) (l : Listener)
    (hi : ls[i]? = some l) (hl : l.Name ≠ c.Name) :
    (editLoop (Info.http c) ls).1[i]? = some l := by
  induction ls generalizing i with
  | nil => simp at hi
  | cons a rest ih =>
    cases i with
    | zero =>
      simp only [List.getElem?_cons_zero, Option.some.injEq] at hi
      subst hi
      simp [editLoop, hl]
    | succ k =>
      simp only [List.getElem?_cons_succ] at hi
      by_cases ha : a.Name = c.Name
      · cases hc : a.Config with
        | HTTP h => simpa [editLoop, ha, hc] using ih k hi
        | SMB s => simpa [editLoop, ha, hc] using hi
        | External e => simpa [editLoop, ha, hc] using hi
        | nil => simpa [editLoop, ha, hc] using hi
      · simpa [editLoop, ha] using ih k hi

theorem editLoop_completes (c : HTTPConfig) (ls : List Listener)
    (h : ∀ l ∈ ls, l.Name = c.Name → ∃ hd, l.Config = Handle.HTTP hd) :
    editLoop (Info.http c) ls = (ls.map (editOne c), false) := by
  induction ls with
  | nil => rfl
  | cons a rest ih =>
    have hrest := ih (fun l hl => h l (List.mem_cons_of_mem a hl))
    by_cases ha : a.Name = c.Name
    · obtain ⟨hd, hc⟩ := h a (List.mem_cons_self a rest) ha
      simp [editLoop, ha, hc, hrest, editOne]
    · simp [editLoop, ha, hrest, editOne]

theorem map_editOne_absent (c : HTTPConfig) (ls : List Listener)
    (h : ∀ l ∈ ls, l.Name ≠ c.Name) : ls.map (editOne c) = ls := by
  induction ls with
  | nil => rfl
  | cons a rest ih =>
    have ha := h a (List.mem_cons_self a rest)
    simp [editOne, ha, ih (fun l hl => h l (List.mem_cons_of_mem a hl))]

/-- Claim C14: `ListenerEdit(HTTP, cfg)` leaves the event log, the agents, the endpoints and
the trace of effects unchanged, keeps the length of the registry and the `Name` and `Type` of
every listener at its index, and leaves every listener whose `Name` is not `cfg.Name` as it
is. In a registry with unique names, the listener named `cfg.Name`, when it has an HTTP
backend, gets `UserAgent`, `Headers`, `Uris` and `Proxy` of `cfg` and keeps every other field
of its configuration, and the call completes. With a name that matches no listener, or with
a type other than HTTP, nothing at all changes. -/
theorem ListenerEdit_frame (E : Env) (t : Teamserver) (cfg : HTTPConfig) :
    (ListenerEdit E E.LISTENER_HTTP (Info.http cfg) t).1.EventsList = t.EventsList ∧
      (ListenerEdit E E.LISTENER_HTTP (Info.http cfg) t).1.Agents = t.Agents ∧
      (ListenerEdit E E.LISTENER_HTTP (Info.http cfg) t).1.Endpoints = t.Endpoints ∧
      (ListenerEdit E E.LISTENER_HTTP (Info.http cfg) t).1.Trace = t.Trace ∧
      (ListenerEdit E E.LISTENER_HTTP (Info.http cfg) t).1.Listeners.length =
        t.Listeners.length ∧
      (ListenerEdit E E.LISTENER_HTTP (Info.http cfg) t).1.Listeners.map (fun l => l.Name) =
        t.Listeners.map (fun l => l.Name) ∧
      (ListenerEdit E E.LISTENER_HTTP (Info.http cfg) t).1.Listeners.map (fun l => l.Type_) =
        t.Listeners.map (fun l => l.Type_) ∧
      (∀ (i : Nat) (l : Listener), t.Listeners[i]? = some l → l.Name ≠ cfg.Name →
        (ListenerEdit E E.LISTENER_HTTP (Info.http cfg) t).1.Listeners[i]? = some l) ∧
      ((t.Listeners.map (fun l => l.Name)).Nodup →
        ∀ (i : Nat) (l : Listener) (h : HTTP), t.Listeners[i]? = some l →
          l.Name = cfg.Name → l.Config = Handle.HTTP h →
          (ListenerEdit E E.LISTENER_HTTP (Info.http cfg) t).2 = false ∧
          (ListenerEdit E E.LISTENER_HTTP (Info.http cfg) t).1.Listeners[i]? =
            some { Name := l.Name, Type_ := l.Type_,
                   Config := Handle.HTTP { Config := { h.Config with
                     UserAgent := cfg.UserAgent, Headers := cfg.Headers, Uris := cfg.Uris,
                     Proxy := cfg.Proxy } } }) ∧
      ((∀ l ∈ t.Listeners, l.Name ≠ cfg.Name) →
        ListenerEdit E E.LISTENER_HTTP (Info.http cfg) t = (t, false)) ∧
      (∀ (Type_ : Int) (Config : Info), Type_ ≠ E.LISTENER_HTTP →
        ListenerEdit E Type_ Config t = (t, false)) := by
  have hdef : ListenerEdit E E.LISTENER_HTTP (Info.http cfg) t =
      ({ t with Listeners := (editLoop (Info.http cfg) t.Listeners).1 },
        (editLoop (Info.http cfg) t.Listeners).2) := by
    simp [ListenerEdit]
  rw [hdef]
  refine ⟨rfl, rfl, rfl, rfl, editLoop_length _ _, editLoop_names _ _, editLoop_types _ _,
    ?_, ?_, ?_, ?_⟩
  · intro i l hi hl
    exact editLoop_other_name cfg t.Listeners i l hi hl
  · intro hnd i l h hi hname hcfg
    have hmem : l ∈ t.Listeners := List.getElem?_mem hi
    have hall : ∀ x ∈ t.Listeners, x.Name = cfg.Name → ∃ hd, x.Config = Handle.HTTP hd := by
      intro x hx hxn
      have hxl : x = l := List.inj_on_of_nodup_map hnd hx hmem (hxn.trans hname.symm)
      exact ⟨h, by rw [hxl, hcfg]⟩
    rw [editLoop_completes cfg t.Listeners hall]
    refine ⟨rfl, ?_⟩
    simp only [List.getElem?_map, hi, Option.map_some']
    simp [editOne, hname, hcfg]
  · intro hnone
    have hall : ∀ x ∈ t.Listeners, x.Name = cfg.Name → ∃ hd, x.Config = Handle.HTTP hd :=
      fun x hx hxn => absurd hxn (hnone x hx)
    rw [editLoop_completes cfg t.Listeners hall, map_editOne_absent cfg t.Listeners hnone]
  · intro Type_ Config hty
    simp [ListenerEdit, hty]

/-! ## `ListenerGetInfo` -/

theorem getInfoLoop_absent (E : Env) (Name : String) (ls : List Listener)
    (h : ∀ l ∈ ls, l.Name ≠ Name) : getInfoLoop E Name ls = InfoResult.ret none := by
  induction ls with
  | nil => rfl
  | cons a rest ih =>
    have ha := h a (List.mem_cons_self a rest)
    simp [getInfoLoop, ha, ih (fun l hl => h l (List.mem_cons_of_mem a hl))]

theorem getInfoLoop_append_absent (E : Env) (Name : String) (pre post : List Listener)
    (h : ∀ l ∈ pre, l.Name ≠ Name) :
    getInfoLoop E Name (pre ++ post) = getInfoLoop E Name post := by
  induction pre with
  | nil => rfl
  | cons a rest ih =>
    have ha := h a (List.mem_cons_self a rest)
    simp [getInfoLoop, ha, ih (fun l hl => h l (List.mem_cons_of_mem a hl))]

theorem getInfoLoop_first_absent_rest (E : Env) (Name : String) (a : Listener)
    (rest : List Listener) (hrest : ∀ l ∈ rest, l.Name ≠ Name) :
    getInfoLoop E Name (a :: rest) = getInfoLoop E Name [a] := by
  have h0 := getInfoLoop_absent E Name rest hrest
  simp only [getInfoLoop, h0]

/-- With unique names, the lookup of `Name` is decided by the one listener of that name. -/
theorem getInfoLoop_unique (E : Env) (Name : String) (ls : List Listener)
    (hnd : (ls.map (fun l => l.Name)).Nodup) (l : Listener) (hl : l ∈ ls)
    (hname : l.Name = Name) : getInfoLoop E Name ls = getInfoLoop E Name [l] := by
  induction ls with
  | nil => simp at hl
  | cons a rest ih =>
    simp only [List.map_cons, List.nodup_cons] at hnd
    rcases List.mem_cons.mp hl with h | h
    · subst h
      apply getInfoLoop_first_absent_rest
      intro x hx hxn
      apply hnd.1
      rw [hname, ← hxn]
      exact List.mem_map_of_mem (fun l => l.Name) hx
    · have ha : a.Name ≠ Name := by
        intro han
        apply hnd.1
        rw [han, ← hname]
        exact List.mem_map_of_mem (fun l => l.Name) h
      have hstep : getInfoLoop E Name (a :: rest) = getInfoLoop E Name rest := by
        simp [getInfoLoop, ha]
      rw [hstep]
      exact ih hnd.2 h

theorem getInfoLoop_single_http (E : Env) (l : Listener) (hd : HTTP)
    (hty : l.Type_ = E.LISTENER_HTTP) (hcfg : l.Config = Handle.HTTP hd) :
    getInfoLoop E l.Name [l] = InfoResult.ret (some (structsMap hd.Config)) := by
  simp [getInfoLoop, hty, hcfg]

theorem getInfoLoop_single_other (E : Env) (l : Listener) (hty : l.Type_ ≠ E.LISTENER_HTTP) :
    getInfoLoop E l.Name [l] = InfoResult.ret none := by
  simp [getInfoLoop, hty]

theorem structsMap_ne_nil (c : HTTPConfig) : structsMap c ≠ [] := by
  simp [structsMap]

theorem startBackend_handle (E : Env) (info : Info) (t t1 : Teamserver)
    (ListenerConfig : Handle) (ListenerName : String)
    (h : startBackend E E.LISTENER_HTTP info t = some (t1, ListenerConfig, ListenerName)) :
    ∃ hd, ListenerConfig = Handle.HTTP hd := by
  unfold startBackend at h
  simp only [if_true] at h
  cases info with
  | http c =>
    simp only [Option.some.injEq, Prod.mk.injEq] at h
    exact ⟨_, h.2.1.symm⟩
  | smb c => simp at h
  | ext c => simp at h
  | other n => simp at h

theorem ListenerStart_http_handles (E : Env) (ListenerType : Int) (info : Info)
    (t : Teamserver)
    (h : ∀ l ∈ t.Listeners, l.Type_ = E.LISTENER_HTTP → ∃ hd, l.Config = Handle.HTTP hd) :
    ∀ l ∈ (ListenerStart E ListenerType info t).1.Listeners,
      l.Type_ = E.LISTENER_HTTP → ∃ hd, l.Config = Handle.HTTP hd := by
  unfold ListenerStart
  cases hscan : nameScan E ListenerType info t.Listeners with
  | panic => exact h
  | found => exact h
  | pass =>
    cases hb : startBackend E ListenerType info t with
    | none => exact h
    | some res =>
      obtain ⟨t1, ListenerConfig, ListenerName⟩ := res
      obtain ⟨hl, -⟩ := startBackend_some E ListenerType info t t1 ListenerConfig
        ListenerName hb
      intro l hmem hty
      simp only [addListener, hl, List.mem_append, List.mem_singleton] at hmem
      rcases hmem with hm | hm
      · exact h l hm hty
      · subst hm
        simp only at hty
        subst hty
        exact startBackend_handle E info t t1 ListenerConfig ListenerName hb

theorem editLoop_http_handles (E : Env) (Config : Info) (ls : List Listener)
    (h : ∀ l ∈ ls, l.Type_ = E.LISTENER_HTTP → ∃ hd, l.Config = Handle.HTTP hd) :
    ∀ l ∈ (editLoop Config ls).1, l.Type_ = E.LISTENER_HTTP →
      ∃ hd, l.Config = Handle.HTTP hd := by
  induction ls with
  | nil => simp [editLoop]
  | cons a rest ih =>
    have hrest := ih (fun l hl => h l (List.mem_cons_of_mem a hl))
    have ha := h a (List.mem_cons_self a rest)
    cases Config with
    | http c =>
      by_cases hn : a.Name = c.Name
      · cases hc : a.Config with
        | HTTP hd0 =>
          intro l hl hty
          simp only [editLoop, hn, hc, if_true, List.mem_cons] at hl
          rcases hl with hm | hm
          · subst hm
            exact ⟨_, rfl⟩
          · exact hrest l hm hty
        | SMB sm => simpa [editLoop, hn, hc] using h
        | External e => simpa [editLoop, hn, hc] using h
        | nil => simpa [editLoop, hn, hc] using h
      · intro l hl hty
        simp only [editLoop, hn, if_false, List.mem_cons] at hl
        rcases hl with hm | hm
        · subst hm
          exact ha hty
        · exact hrest l hm hty
    | smb c => simpa [editLoop] using h
    | ext c => simpa [editLoop] using h
    | other n => simpa [editLoop] using h

theorem http_handles_of_reachable (E : Env) (t : Teamserver) (h : Reachable E t) :
    ∀ l ∈ t.Listeners, l.Type_ = E.LISTENER_HTTP → ∃ hd, l.Config = Handle.HTTP hd := by
  induction h with
  | empty t h0 => simp [h0]
  | start ListenerType info t _ ih => exact ListenerStart_http_handles E ListenerType info t ih
  | remove Name t _ ih =>
    rw [ListenerRemove_Listeners]
    intro l hl hty
    exact ih l ((List.eraseP_sublist t.Listeners).subset hl) hty
  | edit Type_ Config t _ ih =>
    unfold ListenerEdit
    by_cases hty : Type_ = E.LISTENER_HTTP
    · simp only [hty, if_true]
      exact editLoop_http_handles E Config t.Listeners ih
    · simp only [hty, if_false]
      exact ih

/-- Claim C12: in every registry reachable from one without listeners by `ListenerStart`,
`ListenerRemove` and `ListenerEdit`, `ListenerGetInfo(name)` does not panic; when `name` is the
name of a listener of type HTTP it returns the flattened configuration of its backend, a map
that is not empty; when `name` is the name of a listener of type SMB_PIVOT or EXTERNAL, or of
no listener, it returns `nil`. -/
theorem ListenerGetInfo_reachable (E : Env) (t : Teamserver) (h : Reachable E t)
    (Name : String) :
    ListenerGetInfo E Name t ≠ InfoResult.panic ∧
      (∀ l ∈ t.Listeners, l.Name = Name → l.Type_ = E.LISTENER_HTTP →
        ∃ hd, l.Config = Handle.HTTP hd ∧
          ListenerGetInfo E Name t = InfoResult.ret (some (structsMap hd.Config)) ∧
          structsMap hd.Config ≠ []) ∧
      (∀ l ∈ t.Listeners, l.Name = Name →
        (l.Type_ = E.LISTENER_PIVOT_SMB ∨ l.Type_ = E.LISTENER_EXTERNAL) →
        ListenerGetInfo E Name t = InfoResult.ret none) ∧
      ((∀ l ∈ t.Listeners, l.Name ≠ Name) → ListenerGetInfo E Name t = InfoResult.ret none) := by
  have hnd := names_nodup_of_reachable E t h
  have hh := http_handles_of_reachable E t h
  obtain ⟨h12, h13, h23⟩ := E.cases_distinct
  have hhttp : ∀ l ∈ t.Listeners, l.Name = Name → l.Type_ = E.LISTENER_HTTP →
      ∃ hd, l.Config = Handle.HTTP hd ∧
        ListenerGetInfo E Name t = InfoResult.ret (some (structsMap hd.Config)) ∧
        structsMap hd.Config ≠ [] := by
    intro l hl hname hty
    obtain ⟨hd, hcfg⟩ := hh l hl hty
    refine ⟨hd, hcfg, ?_, structsMap_ne_nil hd.Config⟩
    unfold ListenerGetInfo
    rw [getInfoLoop_unique E Name t.Listeners hnd l hl hname, ← hname]
    exact getInfoLoop_single_http E l hd hty hcfg
  have hother : ∀ l ∈ t.Listeners, l.Name = Name → l.Type_ ≠ E.LISTENER_HTTP →
      ListenerGetInfo E Name t = InfoResult.ret none := by
    intro l hl hname hty
    unfold ListenerGetInfo
    rw [getInfoLoop_unique E Name t.Listeners hnd l hl hname, ← hname]
    exact getInfoLoop_single_other E l hty
  have habsent : (∀ l ∈ t.Listeners, l.Name ≠ Name) →
      ListenerGetInfo E Name t = InfoResult.ret none :=
    fun hno => getInfoLoop_absent E Name t.Listeners hno
  refine ⟨?_, hhttp, ?_, habsent⟩
  · by_cases hex : ∃ l ∈ t.Listeners, l.Name = Name
    · obtain ⟨l, hl, hname⟩ := hex
      by_cases hty : l.Type_ = E.LISTENER_HTTP
      · obtain ⟨hd, -, hres, -⟩ := hhttp l hl hname hty
        rw [hres]
        simp
      · rw [hother l hl hname hty]
        simp
    · rw [habsent (fun l hl hn => hex ⟨l, hl, hn⟩)]
      simp
  · intro l hl hname hty
    apply hother l hl hname
    rcases hty with h2 | h3
    · rw [h2]
      exact Ne.symm h12
    · rw [h3]
      exact Ne.symm h13

/-- On the server that runs the HTTP listeners `"A"` and `"B"`, the lookup of `"A"` returns
the configuration `"A"` was started with. -/
theorem ListenerGetInfo_reachable_witness :
    Reachable demoEnv serverAB ∧
      ListenerGetInfo demoEnv "A" serverAB =
        InfoResult.ret (some (structsMap (httpConfig "A" ["/index"]))) ∧
      ListenerGetInfo demoEnv "A" serverAB ≠ InfoResult.panic :=
  ⟨Reachable.start 1 _ serverA (Reachable.start 1 _ emptyServer (Reachable.empty _ rfl)),
    by decide,
    (ListenerGetInfo_reachable demoEnv serverAB
      (Reachable.start 1 _ serverA (Reachable.start 1 _ emptyServer (Reachable.empty _ rfl)))
      "A").1⟩

/-! ## Start, read back, edit, read back -/

theorem structsMap_injective (c1 c2 : HTTPConfig) (h : structsMap c1 = structsMap c2) :
    c1 = c2 := by
  have hinj : Function.Injective (fun kv : String × String => (kv.1, FieldValue.str kv.2)) := by
    intro x y hxy
    simp only [Prod.mk.injEq, FieldValue.str.injEq] at hxy
    exact Prod.ext hxy.1 hxy.2
  simp only [structsMap, List.cons_append, List.nil_append, List.cons.injEq, Prod.mk.injEq,
    FieldValue.str.injEq, FieldValue.strs.injEq, FieldValue.pairs.injEq, FieldValue.bool.injEq,
    true_and] at h
  obtain ⟨hn, hu, hh, hur, hp, hs, hr⟩ := h
  have hrest : c1.Rest = c2.Rest := List.map_injective_iff.mpr hinj hr
  cases c1
  cases c2
  simp only at hn hu hh hur hp hs hrest
  simp [hn, hu, hh, hur, hp, hs, hrest]

theorem ListenerStart_http_fresh (E : Env) (t : Teamserver) (cfg : HTTPConfig)
    (hfresh : ∀ l ∈ t.Listeners, l.Name ≠ cfg.Name)
    (hstart : ∀ (h : HTTP) (s : Teamserver), (E.httpStart h s).1 = h) :
    (ListenerStart E E.LISTENER_HTTP (Info.http cfg) t).2 = Outcome.ok ∧
      (ListenerStart E E.LISTENER_HTTP (Info.http cfg) t).1.Listeners =
        t.Listeners ++ [{ Name := cfg.Name, Type_ := E.LISTENER_HTTP,
                          Config := Handle.HTTP { Config := cfg } }] := by
  have hdecl : declaredName E E.LISTENER_HTTP (Info.http cfg) = some cfg.Name := by
    simp [declaredName]
  have hscan := nameScan_pass E E.LISTENER_HTTP (Info.http cfg) cfg.Name hdecl t.Listeners
    hfresh
  simp [ListenerStart, hscan, startBackend, hstart, addListener, throughCallbacks]

/-- Claim C13: for an HTTP configuration `cfg` whose `Name` is not registered, and a backend
whose `Start()` does not alter its configuration, `ListenerStart(HTTP, cfg)` succeeds and
`ListenerGetInfo(cfg.Name)` then returns the flattened field map of `cfg`, which is the map of
no other configuration; after `ListenerEdit(HTTP, cfg2)` with `cfg2.Name = cfg.Name`, which
completes, it returns the map of `cfg` with `UserAgent`, `Headers`, `Uris` and `Proxy` replaced
by those of `cfg2`. -/
theorem Start_GetInfo_roundtrip (E : Env) (t : Teamserver) (cfg : HTTPConfig)
    (hfresh : ∀ l ∈ t.Listeners, l.Name ≠ cfg.Name)
    (hstart : ∀ (h : HTTP) (s : Teamserver), (E.httpStart h s).1 = h) :
    (ListenerStart E E.LISTENER_HTTP (Info.http cfg) t).2 = Outcome.ok ∧
      ListenerGetInfo E cfg.Name (ListenerStart E E.LISTENER_HTTP (Info.http cfg) t).1 =
        InfoResult.ret (some (structsMap cfg)) ∧
      (∀ c : HTTPConfig, structsMap c = structsMap cfg → c = cfg) ∧
      ∀ cfg2 : HTTPConfig, cfg2.Name = cfg.Name →
        (ListenerEdit E E.LISTENER_HTTP (Info.http cfg2)
          (ListenerStart E E.LISTENER_HTTP (Info.http cfg) t).1).2 = false ∧
        ListenerGetInfo E cfg.Name (ListenerEdit E E.LISTENER_HTTP (Info.http cfg2)
          (ListenerStart E E.LISTENER_HTTP (Info.http cfg) t).1).1 =
          InfoResult.ret (some (structsMap { cfg with
            UserAgent := cfg2.UserAgent, Headers := cfg2.Headers, Uris := cfg2.Uris,
            Proxy := cfg2.Proxy })) := by
  obtain ⟨hok, hls⟩ := ListenerStart_http_fresh E t cfg hfresh hstart
  refine ⟨hok, ?_, fun c hc => structsMap_injective c cfg hc, ?_⟩
  · unfold ListenerGetInfo
    rw [hls, getInfoLoop_append_absent E cfg.Name _ _ hfresh]
    simp [getInfoLoop]
  · intro cfg2 hname
    have hfresh2 : ∀ l ∈ t.Listeners, l.Name ≠ cfg2.Name := by
      intro l hl
      rw [hname]
      exact hfresh l hl
    have hall : ∀ x ∈ (ListenerStart E E.LISTENER_HTTP (Info.http cfg) t).1.Listeners,
        x.Name = cfg2.Name → ∃ hd, x.Config = Handle.HTTP hd := by
      intro x hx hxn
      rw [hls] at hx
      rcases List.mem_append.mp hx with hm | hm
      · exact absurd hxn (hfresh2 x hm)
      · rw [List.mem_singleton] at hm
        exact ⟨{ Config := cfg }, by rw [hm]⟩
    have hedit := editLoop_completes cfg2 _ hall
    have hdef : ListenerEdit E E.LISTENER_HTTP (Info.http cfg2)
        (ListenerStart E E.LISTENER_HTTP (Info.http cfg) t).1 =
        ({ (ListenerStart E E.LISTENER_HTTP (Info.http cfg) t).1 with
            Listeners := (ListenerStart E E.LISTENER_HTTP (Info.http cfg) t).1.Listeners.map
              (editOne cfg2) }, false) := by
      simp [ListenerEdit, hedit]
    rw [hdef]
    refine ⟨rfl, ?_⟩
    unfold ListenerGetInfo
    simp only [hls, List.map_append, List.map_singleton]
    rw [map_editOne_absent cfg2 t.Listeners hfresh2,
      getInfoLoop_append_absent E cfg.Name _ _ hfresh]
    simp [getInfoLoop, editOne, hname]

/-- On the server that runs `"A"`, the HTTP listener `"C"` is started and read back. -/
theorem Start_GetInfo_roundtrip_witness :
    (∀ l ∈ serverA.Listeners, l.Name ≠ (httpConfig "C" ["/c"]).Name) ∧
      (∀ (h : HTTP) (s : Teamserver), (demoEnv.httpStart h s).1 = h) ∧
      ListenerGetInfo demoEnv "C"
          (ListenerStart demoEnv demoEnv.LISTENER_HTTP (Info.http (httpConfig "C" ["/c"]))
            serverA).1 =
        InfoResult.ret (some (structsMap (httpConfig "C" ["/c"]))) :=
  ⟨by decide, fun _ _ => rfl,
    (Start_GetInfo_roundtrip demoEnv serverA (httpConfig "C" ["/c"]) (by decide)
      (fun _ _ => rfl)).2.1⟩

end Havoc
